import Mathlib

/-!
# Verification of the chunking / indexing / retrieval pipeline

Shallow embedding of the core of the Full-Nutrition-Rag-System repository:

* `src/controllers/ProcessController.py` — the text chunker
  (`process_simpler_splitter`);
* `src/stores/vectordb/providers/PGVectorProvider.py` — the pgvector
  backend (collection lifecycle, bulk insert, vector search);
* `src/stores/vectordb/providers/QdrantDBProvider.py` — the Qdrant
  backend;
* `src/controllers/NLPController.py` — collection naming, retrieval and
  answer assembly;
* `src/stores/llm/providers/OpenAIProvider.py` — prompt construction and
  text generation;
* `src/routes/nlp.py` — the `/index/answer/{project_id}` request boundary.

Python strings are embedded as `List Char`, numeric vector entries as `ℚ`,
fallible operations as `Option`/`Except`, and the relational / vector
stores as explicit state values threaded through each operation.
-/

/-! ## Python string primitives

`str.strip()`, `str.split(sep)` and `" ".join(...)` as used by
`ProcessController.process_simpler_splitter` and
`NLPController.create_collection_name`. -/
/-- The whitespace test of Python's `str.strip()` (ASCII whitespace; the
characters actually reaching `strip` in this code base are from this set). -/
def pyCharIsSpace (c : Char) : Bool :=
  c = ' ' || c = '\t' || c = '\n' || c = '\r' || c = '\x0b' || c = '\x0c'

/-- Python `s.strip()`: remove leading and trailing whitespace. -/
def pyStrip (s : List Char) : List Char :=
  ((s.dropWhile pyCharIsSpace).reverse.dropWhile pyCharIsSpace).reverse

/-- The `sep` begins the list `s` (used by `pySplit` to find a separator
occurrence). -/
def beginsWith : List Char → List Char → Bool
  | [], _ => true
  | _ :: _, [] => false
  | c :: cs, d :: ds => c = d && beginsWith cs ds

/-- Recursion core of `pySplit`; each step consumes at least one character
of `s`, so fuel `s.length + 1` always suffices and the `0` case is never
reached from `pySplit`. -/
def pySplitAux (sep : List Char) : Nat → List Char → List (List Char)
  | 0, s => [s]
  | fuel + 1, s =>
    if sep ≠ [] ∧ beginsWith sep s then
      [] :: pySplitAux sep fuel (s.drop sep.length)
    else
      match s with
      | [] => [[]]
      | c :: rest =>
        match pySplitAux sep fuel rest with
        | [] => [[c]]
        | h :: t => (c :: h) :: t

/-- Python `s.split(sep)` for a non-empty separator `sep`: cut `s` at every
occurrence of the substring `sep`.  (Python raises `ValueError` on an empty
separator; with `sep = []` this definition never consumes it and behaves as
if no separator ever matched.) -/
def pySplit (sep : List Char) (s : List Char) : List (List Char) :=
  pySplitAux sep (s.length + 1) s

/-- Python `sep.join(xs)`. -/
def pyJoin (sep : List Char) : List (List Char) → List Char
  | [] => []
  | [x] => x
  | x :: y :: xs => x ++ sep ++ pyJoin sep (y :: xs)

/-! ## The text chunker (`ProcessController.process_simpler_splitter`) -/
/-- The `Document` dataclass of `ProcessController.py`: a chunk's content
and its (always empty here) metadata mapping. -/
structure Document where
  page_content : List Char
  metadata : List (String × String)
deriving DecidableEq, Repr

/-- The `for line in lines:` accumulation loop of
`process_simpler_splitter`, followed by the unconditional final emission
(the source guard `if len(current_chunk) >= 0:` is always true):

```python
for line in lines:
    current_chunk += line + splitter_tag
    if len(current_chunk) >= chunk_size:
        chunks.append(Document(page_content=current_chunk.strip(), metadata={}))
        current_chunk = ""
if len(current_chunk) >= 0:
    chunks.append(Document(page_content=current_chunk.strip(), metadata={}))
```
-/
def splitterLoop (chunk_size : Nat) (splitter_tag : List Char) :
    List (List Char) → List Char → List Document
  | [], current_chunk => [⟨pyStrip current_chunk, []⟩]
  | line :: lines, current_chunk =>
    let current' := current_chunk ++ line ++ splitter_tag
    if chunk_size ≤ current'.length then
      ⟨pyStrip current', []⟩ :: splitterLoop chunk_size splitter_tag lines []
    else
      splitterLoop chunk_size splitter_tag lines current'

/-- The `lines` list of `process_simpler_splitter`: split the full text on
the splitter tag and keep the stripped segments of trimmed length `> 1`. -/
def splitterLines (splitter_tag full_text : List Char) : List (List Char) :=
  ((pySplit splitter_tag full_text).map pyStrip).filter fun d => 1 < d.length

/-- The `ProcessController.process_simpler_splitter(texts, metadatas,
chunk_size, splitter_tag)`: join the texts with a single space, split on
the splitter tag, keep the stripped segments of length `> 1`, and
accumulate them into chunks.  The `metadatas` argument is accepted and
ignored, exactly as in the source. -/
def process_simpler_splitter (texts : List (List Char))
    (metadatas : List (List (String × String))) (chunk_size : Nat)
    (splitter_tag : List Char) : List Document :=
  let full_text := pyJoin [' '] texts
  splitterLoop chunk_size splitter_tag (splitterLines splitter_tag full_text) []

/-- A line of the splitter: non-empty, starting and ending with
non-whitespace (every surviving element of `splitterLines` is one). -/
def GoodLine (l : List Char) : Prop :=
  (∃ c cs, l = c :: cs ∧ pyCharIsSpace c = false) ∧
  (∃ d ds, l = ds ++ [d] ∧ pyCharIsSpace d = false)

/-- Invariant of the running buffer: empty, or starting with
non-whitespace. -/
def BufOK (cur : List Char) : Prop :=
  cur = [] ∨ ∃ c cs, cur = c :: cs ∧ pyCharIsSpace c = false

/-! ## Decomposition of the loop: emitted chunks and final buffer -/
/-- Specification view of `splitterLoop`: only the chunks emitted inside
the `for` loop (the final unconditional emission excluded). -/
def splitterLoopEmitted (chunk_size : Nat) (splitter_tag : List Char) :
    List (List Char) → List Char → List Document
  | [], _ => []
  | line :: lines, current_chunk =>
    let current' := current_chunk ++ line ++ splitter_tag
    if chunk_size ≤ current'.length then
      ⟨pyStrip current', []⟩ :: splitterLoopEmitted chunk_size splitter_tag lines []
    else
      splitterLoopEmitted chunk_size splitter_tag lines current'

/-- Specification view of `splitterLoop`: the value of `current_chunk`
when the `for` loop has consumed all lines. -/
def splitterLoopBuffer (chunk_size : Nat) (splitter_tag : List Char) :
    List (List Char) → List Char → List Char
  | [], current_chunk => current_chunk
  | line :: lines, current_chunk =>
    let current' := current_chunk ++ line ++ splitter_tag
    if chunk_size ≤ current'.length then
      splitterLoopBuffer chunk_size splitter_tag lines []
    else
      splitterLoopBuffer chunk_size splitter_tag lines current'

/-! ## Collection naming (`NLPController.create_collection_name`) -/
/-- The ASCII digit character of `d` (for `d < 10`), as produced by
Python's `str(int)`. -/
def digitChar : Nat → Char
  | 0 => '0'
  | 1 => '1'
  | 2 => '2'
  | 3 => '3'
  | 4 => '4'
  | 5 => '5'
  | 6 => '6'
  | 7 => '7'
  | 8 => '8'
  | _ => '9'

/-- Decimal rendering core; each step divides `n` by 10, so fuel `n + 1`
always suffices and the `0` case is never reached from `natToChars`. -/
def natToCharsAux : Nat → Nat → List Char → List Char
  | 0, _, acc => acc
  | fuel + 1, n, acc =>
    if n = 0 then acc else natToCharsAux fuel (n / 10) (digitChar (n % 10) :: acc)

/-- Python `str(n)` for a natural number: decimal digits, no sign, no
leading zeros (except `"0"` itself). -/
def natToChars (n : Nat) : List Char :=
  if n = 0 then ['0'] else natToCharsAux (n + 1) n []

/-- The numeric value of a digit string (used only to prove `natToChars`
injective). -/
def digitsVal : List Char → Nat
  | [] => 0
  | c :: cs => (c.toNat - 48) * 10 ^ cs.length + digitsVal cs

/-- The `NLPController.create_collection_name(project_id)`:
`f"Collection_{self.vectordb_client.default_vector_size}_{project_id}".strip()`. -/
def create_collection_name (default_vector_size : Nat) (project_id : Nat) :
    List Char :=
  pyStrip ("Collection_".data ++ natToChars default_vector_size ++
    "_".data ++ natToChars project_id)

/-! ## The OpenAI provider (`OpenAIProvider`) -/
/-- A chat message as built by `OpenAIProvider.construct_prompt`. -/
structure ChatMessage where
  role : String
  content : String
deriving DecidableEq, Repr

/-- The `OpenAIProvider.construct_prompt(prompt, role)`:
`{"role": role, "content": prompt}`. -/
def construct_prompt (prompt role : String) : ChatMessage :=
  ⟨role, prompt⟩

/-- The `OpenAIProvider.generate_text(prompt, chat_history, ...)`.

The method appends the user-role turn to the caller-supplied list in
place (`chat_history.append(self.construct_prompt(...))`), then calls the
chat-completions API on that list.  The first component of the result is
the final contents of the caller's `chat_history` list (Python lists are
passed by reference, so the caller observes the append); the second is
the returned answer.  The external API is the oracle `api`; `api` yields
`none` for the empty/malformed responses the method maps to `None`.  The
`self.client` check cannot fail (the client is always constructed in
`__init__`), and an unset generation model returns `None` before
touching the history. -/
def generate_text (generation_model_id : Option String)
    (api : List ChatMessage → Option String)
    (prompt : String) (chat_history : List ChatMessage) :
    List ChatMessage × Option String :=
  match generation_model_id with
  | none => (chat_history, none)
  | some _ =>
    let history' := chat_history ++ [construct_prompt prompt "user"]
    (history', api history')

/-! ## The pgvector backend (`PGVectorProvider`)

The provider issues SQL against PostgreSQL; the database is embedded as an
explicit association list from table (collection) name to table contents.
-/
/-- One row of a pgvector collection table
(`id bigserial PRIMARY KEY, text text, vector vector(n), metadata jsonb,
chunk_id integer`).  `metadata = none` stands for the serialized default
literal. -/
structure PGRow where
  id : Nat
  text : String
  vector : List ℚ
  metadata : Option String
  chunk_id : Int
deriving DecidableEq, Repr

/-- A pgvector collection table: its vector dimension, the next bigserial
id, the rows in insertion order, and the secondary vector index when one
has been created (index type and pgvector operator class). -/
structure PGTable where
  dim : Nat
  nextId : Nat
  rows : List PGRow
  vectorIndex : Option (String × Option String)
deriving DecidableEq, Repr

def emptyPGTable (dim : Nat) : PGTable :=
  ⟨dim, 1, [], none⟩

/-- The PostgreSQL database: tables keyed by name (`pg_tables`). -/
abbrev PGState := List (List Char × PGTable)

/-- Provider configuration fixed in `PGVectorProvider.__init__`. -/
structure PGConfig where
  distance_method : Option String
  index_threshold : Nat
deriving DecidableEq, Repr

/-- The `__init__`'s translation of the configured distance method to the
pgvector operator class (note the source maps `"dot"` to
`"vector_l2_ops"`); anything else is kept as-is. -/
def pg_map_distance_method : Option String → Option String
  | none => none
  | some s =>
    if s = "cosine" then some "vector_cosine_ops"
    else if s = "dot" then some "vector_l2_ops"
    else some s

/-- The `PGVectorProvider.is_collection_existed`: the `pg_tables` row for the
name, used by callers only for its truthiness. -/
def pg_is_collection_existed (st : PGState) (collection_name : List Char) : Bool :=
  (st.lookup collection_name).isSome

/-- Replace the contents stored under a key in a name-keyed store. -/
def mapReplace {β : Type} (st : List (List Char × β)) (name : List Char)
    (b : β) : List (List Char × β) :=
  st.map fun e => if e.1 = name then (name, b) else e

/-- Replace the named table's contents (all `UPDATE`-like state changes). -/
def pgReplace (st : PGState) (collection_name : List Char) (tbl : PGTable) :
    PGState :=
  mapReplace st collection_name tbl

/-- The `PGVectorProvider.delete_collection`: `DROP TABLE IF EXISTS`, always
returning `True`. -/
def pg_delete_collection (st : PGState) (collection_name : List Char) :
    PGState × Bool :=
  (st.filter fun e => e.1 != collection_name, true)

/-- The `PGVectorProvider.create_collection(collection_name, embedding_size,
do_reset)`: drop first when `do_reset`, then create the table only if the
name does not exist, returning whether a table was created. -/
def pg_create_collection (st : PGState) (collection_name : List Char)
    (embedding_size : Nat) (do_reset : Bool) : PGState × Bool :=
  let st1 := if do_reset then (pg_delete_collection st collection_name).1 else st
  if pg_is_collection_existed st1 collection_name then
    (st1, false)
  else
    ((collection_name, emptyPGTable embedding_size) :: st1, true)

/-- The `PGVectorProvider.create_vector_index(collection_name, index_type)`:
skip if the index already exists or the row count is below
`self.index_threshold`; otherwise create the index using
`self.distance_method` as the operator class.  (The provider only calls
this on existing collections; on a missing one the SQL `COUNT` would
fail, modelled as no state change.) -/
def pg_create_vector_index (cfg : PGConfig) (st : PGState)
    (collection_name : List Char) (index_type : String) : PGState :=
  match st.lookup collection_name with
  | none => st
  | some tbl =>
    if tbl.vectorIndex.isSome then st
    else if tbl.rows.length < cfg.index_threshold then st
    else pgReplace st collection_name
      { tbl with vectorIndex := some (index_type, cfg.distance_method) }

/-- Four-list `zip` (Python `zip` semantics: stop at the shortest list),
combined with a row constructor. -/
def zip4With {α β γ δ ε : Type} (f : α → β → γ → δ → ε) :
    List α → List β → List γ → List δ → List ε
  | a :: as, b :: bs, c :: cs, d :: ds => f a b c d :: zip4With f as bs cs ds
  | _, _, _, _ => []

/-- The per-batch `values` list of `insert_many`: `zip(batch_texts,
batch_vectors, batch_metadata, batch_record_ids)` — Python `zip` stops at
the shortest list. -/
def pgZipValues (texts : List String) (vectors : List (List ℚ))
    (metadata : List (Option String)) (record_ids : List Int) :
    List (String × List ℚ × Option String × Int) :=
  zip4With (fun t v m i => (t, v, m, i)) texts vectors metadata record_ids

/-- One multi-row `INSERT`: append the value rows in order, each receiving
the next bigserial id. -/
def pgAppendRows (tbl : PGTable)
    (vals : List (String × List ℚ × Option String × Int)) : PGTable :=
  { tbl with
    rows := tbl.rows ++ vals.enum.map fun p =>
      ⟨tbl.nextId + p.1, p.2.1, p.2.2.1, p.2.2.2.1, p.2.2.2.2⟩
    nextId := tbl.nextId + vals.length }

/-- The `for i in range(0, len(texts), batch_size)` loop of
`PGVectorProvider.insert_many`: slice all four lists to the batch, build
the values, and run one batch `INSERT`.  `bpred + 1` is the batch size;
each step consumes at least one text, so fuel `texts.length + 1` always
suffices and the `0` case is never reached. -/
def pgInsertLoop (collection_name : List Char) (bpred : Nat) :
    Nat → List String → List (List ℚ) → List (Option String) → List Int →
    PGState → PGState
  | 0, _, _, _, _, st => st
  | _, [], _, _, _, st => st
  | fuel + 1, t :: ts, vectors, metadata, record_ids, st =>
    let b := bpred + 1
    let vals := pgZipValues ((t :: ts).take b) (vectors.take b)
      (metadata.take b) (record_ids.take b)
    let st' :=
      match st.lookup collection_name with
      | some tbl => pgReplace st collection_name (pgAppendRows tbl vals)
      | none => st
    pgInsertLoop collection_name bpred fuel ((t :: ts).drop b) (vectors.drop b)
      (metadata.drop b) (record_ids.drop b) st'

/-- The metadata defaulting of `PGVectorProvider.insert_many`:
`if not metadata or len(metadata) == 0: metadata = [None] * len(texts)`. -/
def pgDefaultMetadata (metadata : Option (List (Option String))) (n : Nat) :
    List (Option String) :=
  match metadata with
  | none => List.replicate n none
  | some ms => if ms.length = 0 then List.replicate n none else ms

/-- The `PGVectorProvider.insert_many(collection_name, texts, vectors,
metadata, record_ids, batch_size)`: reject a missing collection and a
`len(vectors) != len(record_ids)` mismatch with `False` (no write);
default missing/empty metadata to `None` per text; insert in batches of
`batch_size`; finally call `create_vector_index`.  A `batch_size` of `0`
models Python's `range` step-zero `ValueError` (no caller passes it). -/
def pg_insert_many (cfg : PGConfig) (st : PGState) (collection_name : List Char)
    (texts : List String) (vectors : List (List ℚ))
    (metadata : Option (List (Option String))) (record_ids : List Int)
    (batch_size : Nat) : Except String (PGState × Bool) :=
  if pg_is_collection_existed st collection_name = false then
    .ok (st, false)
  else if vectors.length ≠ record_ids.length then
    .ok (st, false)
  else
    let metadata := pgDefaultMetadata metadata texts.length
    match batch_size with
    | 0 => .error "ValueError: range() arg 3 must not be zero"
    | bpred + 1 =>
      let st' := pgInsertLoop collection_name bpred (texts.length + 1)
        texts vectors metadata record_ids st
      .ok (pg_create_vector_index cfg st' collection_name "hnsw", true)

/-- The ephemeral search result (`models/db_schemas` `RetrievedDocument`). -/
structure RetrievedDocument where
  text : String
  score : ℚ
deriving DecidableEq, Repr

/-- The `ORDER BY score DESC` ordering of the search SQL. -/
def scoreDesc (a b : RetrievedDocument) : Prop :=
  b.score ≤ a.score

instance : DecidableRel scoreDesc :=
  fun a b => inferInstanceAs (Decidable (b.score ≤ a.score))

instance : IsTotal RetrievedDocument scoreDesc :=
  ⟨fun a b => le_total b.score a.score⟩

instance : IsTrans RetrievedDocument scoreDesc :=
  ⟨fun _ _ _ h1 h2 => le_trans h2 h1⟩

/-- The `PGVectorProvider.search_by_vector(collection_name, vector, limit)`.

Returns `none` (Python `False`) when the collection does not exist;
otherwise the SQL
`SELECT text, 1 - (vector <=> :vector) AS score ... ORDER BY score DESC
LIMIT limit` — `<=>` is pgvector's cosine-distance operator, abstracted
here as the `cosineDist` parameter.  The query is built the same way
whatever `self.distance_method` was configured as (the `cfg` argument
mirrors `self` and is not read). -/
def pg_search_by_vector (cfg : PGConfig)
    (cosineDist : List ℚ → List ℚ → ℚ) (st : PGState)
    (collection_name : List Char) (vector : List ℚ) (limit : Nat) :
    Option (List RetrievedDocument) :=
  match st.lookup collection_name with
  | none => none
  | some tbl =>
    some ((((tbl.rows.map fun r =>
      RetrievedDocument.mk r.text (1 - cosineDist r.vector vector)).insertionSort
        scoreDesc)).take limit)

/-! ## The Qdrant backend (`QdrantDBProvider`)

The provider drives the external `qdrant_client`; the client's store is
embedded as an association list from collection name to collection.  The
provider's `async` helper methods `is_collection_existed` and
`delete_collection` are invoked *without* `await` inside
`create_collection`; a call without `await` only builds a coroutine
object: the callee's body never runs, and the coroutine object is truthy
in a boolean context.  The definitions below reproduce that behaviour.
-/
/-- Payload metadata as stored by `insert_many`: the caller's mapping, the
integer filler `list(range(len(texts)))` substituted for a `None`
metadata argument, or Python `None`. -/
inductive QMeta where
  | mStr (s : String)
  | mInt (n : Nat)
  | mNone
deriving DecidableEq, Repr

/-- A Qdrant point (`models.Record`): id, vector and
`payload={"text": ..., "metadata": ...}`. -/
structure QPoint where
  id : Option Int
  vector : List ℚ
  text : String
  metadata : QMeta
deriving DecidableEq, Repr

/-- A Qdrant collection: its vector parameters and points. -/
structure QCollection where
  dim : Nat
  distance : Option String
  points : List QPoint
deriving DecidableEq, Repr

/-- The qdrant client's store: collections keyed by name. -/
abbrev QdrantState := List (List Char × QCollection)

/-- Replace the named collection's contents. -/
def qReplace (st : QdrantState) (collection_name : List Char)
    (c : QCollection) : QdrantState :=
  mapReplace st collection_name c

/-- One record upsert of `client.upload_records`: a point with the same id
is overwritten in place, a new id is appended.  (Modelled from the
external `qdrant_client`: point ids are upsert keys.) -/
def qUpsertPoint (ps : List QPoint) (r : QPoint) : List QPoint :=
  if ps.any fun p => p.id == r.id then
    ps.map fun p => if p.id = r.id then r else p
  else
    ps ++ [r]

/-- The `client.upload_records`' effect on a collection: upsert the records in
order. -/
def qUpsertMany (ps : List QPoint) (rs : List QPoint) : List QPoint :=
  rs.foldl qUpsertPoint ps

/-- The `client.upload_records(collection_name, records)`: the local qdrant
client raises on a missing collection; otherwise it upserts the records
by id. -/
def qdrant_client_upload_records (st : QdrantState) (collection_name : List Char)
    (records : List QPoint) : Except String QdrantState :=
  match st.lookup collection_name with
  | none => .error "ValueError: collection not found"
  | some c =>
    .ok (qReplace st collection_name { c with points := qUpsertMany c.points records })

/-- The `QdrantDBProvider.create_collection(collection_name, embedding_size,
do_reset)`.

Both awaited calls in the source body are missing their `await`:

* `_ = self.delete_collection(collection_name)` builds a coroutine that is
  never run, so no deletion happens even when `do_reset` is true;
* `if not self.is_collection_existed(collection_name):` tests a coroutine
  object, which is always truthy, so `not ...` is always `False` and the
  creation branch never runs.

The method therefore never changes the store and always returns `False`,
whatever the arguments. -/
def qdrant_create_collection (st : QdrantState) (collection_name : List Char)
    (embedding_size : Nat) (do_reset : Bool) : QdrantState × Bool :=
  (st, false)

/-- The record comprehension of `QdrantDBProvider.insert_many`
(`models.Record(id=batch_record_ids[x], vector=batch_vectors[x],
payload={...}) for x in range(len(batch_texts))`): iteration is driven by
the texts; exhausting any other list raises an uncaught `IndexError`;
excess elements of the other lists are silently ignored. -/
def qdrantMakeRecords :
    List String → List (List ℚ) → List QMeta → List (Option Int) →
    Except String (List QPoint)
  | [], _, _, _ => .ok []
  | _ :: _, [], _, _ => .error "IndexError: list index out of range"
  | _ :: _, _ :: _, [], _ => .error "IndexError: list index out of range"
  | _ :: _, _ :: _, _ :: _, [] => .error "IndexError: list index out of range"
  | t :: ts, v :: vs, m :: ms, i :: is =>
    (qdrantMakeRecords ts vs ms is).map fun rs => ⟨i, v, t, m⟩ :: rs

/-- Total counterpart of `qdrantMakeRecords` on sufficiently long lists
(used only in specifications). -/
def qdrantRecordsOf (texts : List String) (vectors : List (List ℚ))
    (metadata : List QMeta) (record_ids : List (Option Int)) : List QPoint :=
  zip4With (fun t v m i => QPoint.mk i v t m) texts vectors metadata record_ids

/-- The batch loop of `QdrantDBProvider.insert_many`; `bpred + 1` is the
batch size.  An upload failure is caught by the `except` clause and
returns `False` (earlier batches stay written); a record-construction
`IndexError` is outside the `try` and propagates.  Fuel as in
`pgInsertLoop`. -/
def qdrantInsertLoop (collection_name : List Char) (bpred : Nat) :
    Nat → List String → List (List ℚ) → List QMeta → List (Option Int) →
    QdrantState → Except String (QdrantState × Bool)
  | 0, _, _, _, _, st => .ok (st, true)
  | _, [], _, _, _, st => .ok (st, true)
  | fuel + 1, t :: ts, vectors, metadata, record_ids, st => do
    let b := bpred + 1
    let records ← qdrantMakeRecords ((t :: ts).take b) (vectors.take b)
      (metadata.take b) (record_ids.take b)
    match qdrant_client_upload_records st collection_name records with
    | .error _ => .ok (st, false)
    | .ok st' =>
      qdrantInsertLoop collection_name bpred fuel ((t :: ts).drop b)
        (vectors.drop b) (metadata.drop b) (record_ids.drop b) st'

/-- The metadata defaulting of `QdrantDBProvider.insert_many`:
`if metadata is None: metadata = list(range(0, len(texts)))`. -/
def qdrantDefaultMetadata (metadata : Option (List QMeta)) (n : Nat) :
    List QMeta :=
  match metadata with
  | none => (List.range n).map QMeta.mInt
  | some ms => ms

/-- The id defaulting of `QdrantDBProvider.insert_many`:
`if record_ids is None: record_ids = [None] * len(texts)`. -/
def qdrantDefaultIds (record_ids : Option (List Int)) (n : Nat) :
    List (Option Int) :=
  match record_ids with
  | none => List.replicate n none
  | some ids => ids.map some

/-- The `QdrantDBProvider.insert_many(collection_name, texts, vectors,
metadata, record_ids, batch_size)`: no existence check and no length
check; metadata and record ids are defaulted, then the batch loop runs.
A `batch_size` of `0` models Python's `range` step-zero `ValueError` (no
caller passes it). -/
def qdrant_insert_many (st : QdrantState) (collection_name : List Char)
    (texts : List String) (vectors : List (List ℚ))
    (metadata : Option (List QMeta)) (record_ids : Option (List Int))
    (batch_size : Nat) : Except String (QdrantState × Bool) :=
  let metadata := qdrantDefaultMetadata metadata texts.length
  let record_ids := qdrantDefaultIds record_ids texts.length
  match batch_size with
  | 0 => .error "ValueError: range() arg 3 must not be zero"
  | bpred + 1 =>
    qdrantInsertLoop collection_name bpred (texts.length + 1)
      texts vectors metadata record_ids st

/-- The `client.search(collection_name, query_vector, limit)`: the local
qdrant client raises on a missing collection; otherwise it returns up to
`limit` points scored by the collection's configured metric (abstracted
as `qscore`), best first. -/
def qdrant_client_search (qscore : List ℚ → List ℚ → ℚ) (st : QdrantState)
    (collection_name : List Char) (vector : List ℚ) (limit : Nat) :
    Except String (List RetrievedDocument) :=
  match st.lookup collection_name with
  | none => .error "ValueError: collection not found"
  | some c =>
    .ok (((c.points.map fun p =>
      RetrievedDocument.mk p.text (qscore p.vector vector)).insertionSort
        scoreDesc).take limit)

/-- The `QdrantDBProvider.search_by_vector(collection_name, vector, limit)`:
no existence check — an exception from the client call propagates; an
empty result is mapped to `None` (here `none`), otherwise the documents
are returned. -/
def qdrant_search_by_vector (qscore : List ℚ → List ℚ → ℚ) (st : QdrantState)
    (collection_name : List Char) (vector : List ℚ) (limit : Nat) :
    Except String (Option (List RetrievedDocument)) := do
  let results ← qdrant_client_search qscore st collection_name vector limit
  if results.length = 0 then pure none else pure (some results)

/-! ## Retrieval and answer assembly (`NLPController`, `routes/nlp.py`)

The controller is generic over the vector-store client; it is
instantiated here with the pgvector backend.  The embedding client's
output for the query (`embed_text(text, "query")`) enters as `embedOut`
(`none` models Python `None`); the template parser's three lookups and
the generation provider's truncation enter as function parameters. -/
/-- The `NLPController.search_vector_db_collection(project, text, limit)` over
the pgvector backend.  `none` models the Python `False` returned when the
embedding is missing/empty, when the query vector is empty, and when the
provider's result is falsy (`False` for a missing collection, or an empty
result list). -/
def search_vector_db_collection_pg (cfg : PGConfig)
    (cosineDist : List ℚ → List ℚ → ℚ) (st : PGState)
    (default_vector_size project_id : Nat)
    (embedOut : Option (List (List ℚ))) (limit : Nat) :
    Option (List RetrievedDocument) :=
  let collection_name := create_collection_name default_vector_size project_id
  match embedOut with
  | none => none
  | some vectors =>
    if vectors.length = 0 then none
    else
      match vectors.head? with
      | none => none
      | some query_vector =>
        if query_vector.length = 0 then none
        else
          match pg_search_by_vector cfg cosineDist st collection_name
            query_vector limit with
          | none => none
          | some results => if results.length = 0 then none else some results

/-- The `NLPController.answer_rag_question(project, query, limit)` over the
pgvector backend.  `none` models the bare `return None` taken when
retrieval yields nothing; otherwise the result is the tuple
`(answer, full_prompt, chat_history)` — where `chat_history` is the list
object that `generate_text` extended in place with the user turn. -/
def answer_rag_question_pg (cfg : PGConfig)
    (cosineDist : List ℚ → List ℚ → ℚ) (st : PGState)
    (default_vector_size project_id : Nat) (query : String) (limit : Nat)
    (embedOut : Option (List (List ℚ)))
    (system_prompt : String) (document_prompt : Nat → String → String)
    (footer_prompt : String → String) (process_prompt : String → String)
    (generation_model_id : Option String)
    (api : List ChatMessage → Option String) :
    Option (Option String × String × List ChatMessage) :=
  match search_vector_db_collection_pg cfg cosineDist st default_vector_size
    project_id embedOut limit with
  | none => none
  | some retrieved_documents =>
    if retrieved_documents.length = 0 then none
    else
      let documents_prompt := String.intercalate "\n"
        (retrieved_documents.enum.map fun p =>
          document_prompt (p.1 + 1) (process_prompt p.2.text))
      let chat_history := [construct_prompt system_prompt "system"]
      let full_prompt := String.intercalate "\n\n"
        [documents_prompt, footer_prompt query]
      let result := generate_text generation_model_id api full_prompt chat_history
      some (result.2, full_prompt, result.1)

/-- The JSON response of the `/index/answer/{project_id}` route. -/
inductive AnswerRouteResponse where
  | ragAnswerError
  | ragAnswerSuccess (answer : String) (full_prompt : String)
      (chat_history : List ChatMessage)
deriving DecidableEq, Repr

/-- The `routes/nlp.py answer_rag(...)` after project resolution:

```python
answer, full_prompt, chat_history = await nlp_controller.answer_rag_question(...)
if not answer:
    return JSONResponse(status_code=400, content={... RAG_ANSWER_ERROR ...})
return JSONResponse(content={... RAG_ANSWER_SUCCESS, answer, full_prompt, chat_history})
```

When the controller returns a bare `None` (retrieval yielded nothing),
the tuple unpacking itself raises `TypeError: cannot unpack non-iterable
NoneType object` before the error branch can run — an uncaught fault, so
the route is modelled in `Except`.  A falsy `answer` (`None` from the
generation call, or an empty string) reaches the error response. -/
def answer_rag_route_pg (cfg : PGConfig)
    (cosineDist : List ℚ → List ℚ → ℚ) (st : PGState)
    (default_vector_size project_id : Nat) (query : String) (limit : Nat)
    (embedOut : Option (List (List ℚ)))
    (system_prompt : String) (document_prompt : Nat → String → String)
    (footer_prompt : String → String) (process_prompt : String → String)
    (generation_model_id : Option String)
    (api : List ChatMessage → Option String) :
    Except String AnswerRouteResponse :=
  match answer_rag_question_pg cfg cosineDist st default_vector_size project_id
    query limit embedOut system_prompt document_prompt footer_prompt
    process_prompt generation_model_id api with
  | none => .error "TypeError: cannot unpack non-iterable NoneType object"
  | some (answer, full_prompt, chat_history) =>
    match answer with
    | none => .ok .ragAnswerError
    | some a =>
      if a.length = 0 then .ok .ragAnswerError
      else .ok (.ragAnswerSuccess a full_prompt chat_history)

/-! ## Qdrant upsert idempotence (for C5) -/
/-- A point list is settled for `r`: some point carries `r`'s id, and
every point carrying it equals `r`. -/
def qSettled (ps : List QPoint) (r : QPoint) : Prop :=
  (∃ p ∈ ps, p.id = r.id) ∧ ∀ p ∈ ps, p.id = r.id → p = r

/-- The collection contents after upserting records `rs` into `c`. -/
def qAfterUpsert (c : QCollection) (rs : List QPoint) : QCollection :=
  { c with points := qUpsertMany c.points rs }

/-! ## Theorems -/

/-- Concrete trace: `["ab\ncd"]` at `chunk_size = 3` with the `"\n"`
splitter yields the chunks `"ab"`, `"cd"` and a trailing empty chunk. -/
theorem chunker_trace_ab_cd :
    (process_simpler_splitter ["ab\ncd".data] [] 3 ['\n']).map Document.page_content =
      ["ab".data, "cd".data, []] := by decide

/-- Concrete trace: single-character segments are dropped by the
`len(doc.strip()) > 1` filter, so `["a\nb\nc\nd"]` produces only the
final (empty) chunk. -/
theorem chunker_trace_single_chars :
    (process_simpler_splitter ["a\nb\nc\nd".data] [] 3 ['\n']).map Document.page_content =
      [[]] := by decide

/-! ## Properties of `pyStrip` and the chunk accumulation loop -/
/-- The first element surviving `dropWhile` fails the predicate. -/
theorem dropWhile_head_false {α : Type} (p : α → Bool) :
    ∀ (l : List α) (c : α) (cs : List α), l.dropWhile p = c :: cs → p c = false := by
  intro l
  induction l with
  | nil => intro c cs h; simp [List.dropWhile] at h
  | cons a as ih =>
    intro c cs h
    rw [List.dropWhile_cons] at h
    by_cases hp : p a = true
    · simp only [hp, if_true] at h
      exact ih _ _ h
    · simp only [hp, if_false] at h
      cases h
      simpa using hp

/-- The `dropWhile` returns a suffix of its input. -/
theorem exists_append_dropWhile {α : Type} (p : α → Bool) (l : List α) :
    ∃ r, r ++ l.dropWhile p = l := by
  induction l with
  | nil => exact ⟨[], rfl⟩
  | cons a as ih =>
    rw [List.dropWhile_cons]
    by_cases hp : p a = true
    · simp only [hp, if_true]
      obtain ⟨r, hr⟩ := ih
      exact ⟨a :: r, by simp [hr]⟩
    · simp only [hp, if_false]
      exact ⟨[], rfl⟩

/-- A non-empty stripped string starts and ends with non-whitespace. -/
theorem pyStrip_shape (s : List Char) (h : pyStrip s ≠ []) :
    (∃ c cs, pyStrip s = c :: cs ∧ pyCharIsSpace c = false) ∧
    (∃ d ds, pyStrip s = ds ++ [d] ∧ pyCharIsSpace d = false) := by
  unfold pyStrip at *
  set t := s.dropWhile pyCharIsSpace with ht
  set u := t.reverse.dropWhile pyCharIsSpace with hu
  have hu_ne : u ≠ [] := by
    intro hnil
    rw [hnil] at h
    simp at h
  obtain ⟨c, cs, hcons⟩ := List.exists_cons_of_ne_nil hu_ne
  have hc : pyCharIsSpace c = false := dropWhile_head_false _ _ _ _ (hu ▸ hcons)
  constructor
  · -- head of the result: `u.reverse` is a prefix of `t`, whose head is
    -- non-whitespace
    obtain ⟨r, hr⟩ := exists_append_dropWhile pyCharIsSpace t.reverse
    have htdec : t = u.reverse ++ r.reverse := by
      have := congrArg List.reverse hr
      simpa [List.reverse_append] using this.symm
    have ht_ne : t ≠ [] := by
      intro hnil
      rw [hnil] at htdec
      have h1 : u.reverse = [] := (List.append_eq_nil.mp htdec.symm).1
      exact hu_ne (by simpa using congrArg List.reverse h1)
    obtain ⟨t0, t', ht0⟩ := List.exists_cons_of_ne_nil ht_ne
    have ht0ws : pyCharIsSpace t0 = false := dropWhile_head_false _ _ _ _ (ht ▸ ht0)
    obtain ⟨e, es, he⟩ := List.exists_cons_of_ne_nil
      (show u.reverse ≠ [] by simp [hu_ne])
    have hte : t0 = e := by
      rw [ht0, he] at htdec
      injection htdec
    exact ⟨e, es, he, hte ▸ ht0ws⟩
  · refine ⟨c, cs.reverse, ?_, hc⟩
    rw [hcons]
    simp

/-- The `dropWhile` over `a ++ c :: b` keeps at least `c :: b` when `c` fails
the predicate. -/
theorem dropWhile_append_length {α : Type} (p : α → Bool) (c : α) (b : List α)
    (hc : p c = false) :
    ∀ a : List α, (c :: b).length ≤ ((a ++ c :: b).dropWhile p).length := by
  intro a
  induction a with
  | nil =>
    rw [List.nil_append, List.dropWhile_cons]
    simp [hc]
  | cons a0 a' ih =>
    rw [List.cons_append, List.dropWhile_cons]
    by_cases hp : p a0 = true
    · simpa [hp] using ih
    · simp [hp]
      omega

theorem bufOK_append (cur l tag : List Char) (h : BufOK cur) (hl : GoodLine l) :
    BufOK (cur ++ l ++ tag) := by
  rcases h with rfl | ⟨c, cs, rfl, hc⟩
  · obtain ⟨⟨c, cs, rfl, hc⟩, -⟩ := hl
    exact Or.inr ⟨c, cs ++ tag, by simp, hc⟩
  · exact Or.inr ⟨c, cs ++ l ++ tag, by simp, hc⟩

/-- Trimming the emitted buffer `cur ++ l ++ tag` removes at most the
trailing `tag`: the trimmed length is at least `cur.length + l.length`. -/
theorem pyStrip_padded_length (cur l tag : List Char)
    (hhead : BufOK cur) (hl : GoodLine l) :
    cur.length + l.length ≤ (pyStrip (cur ++ l ++ tag)).length := by
  obtain ⟨⟨c0, cs0, hl0, hc0⟩, d, ds, hld, hd⟩ := hl
  have hx : ∃ c rest, cur ++ l ++ tag = c :: rest ∧ pyCharIsSpace c = false := by
    rcases hhead with rfl | ⟨c, cs, rfl, hc⟩
    · exact ⟨c0, cs0 ++ tag, by simp [hl0], hc0⟩
    · exact ⟨c, cs ++ l ++ tag, by simp, hc⟩
  obtain ⟨c, rest, hcr, hcws⟩ := hx
  have hdrop1 : (cur ++ l ++ tag).dropWhile pyCharIsSpace = cur ++ l ++ tag := by
    rw [hcr, List.dropWhile_cons]
    simp [hcws]
  have hrev : (cur ++ l ++ tag).reverse =
      tag.reverse ++ d :: (ds.reverse ++ cur.reverse) := by
    rw [hld]
    simp [List.reverse_append]
  have hlen := dropWhile_append_length pyCharIsSpace d
    (ds.reverse ++ cur.reverse) hd tag.reverse
  rw [← hrev] at hlen
  unfold pyStrip
  rw [hdrop1, List.length_reverse]
  have : l.length = ds.length + 1 := by rw [hld]; simp
  simp only [List.length_cons, List.length_append, List.length_reverse] at hlen
  omega

theorem splitterLoop_nil (k : Nat) (tag cur : List Char) :
    splitterLoop k tag [] cur = [⟨pyStrip cur, []⟩] := rfl

theorem splitterLoop_cons (k : Nat) (tag l cur : List Char) (ls : List (List Char)) :
    splitterLoop k tag (l :: ls) cur =
      if k ≤ (cur ++ l ++ tag).length then
        ⟨pyStrip (cur ++ l ++ tag), []⟩ :: splitterLoop k tag ls []
      else
        splitterLoop k tag ls (cur ++ l ++ tag) := rfl

/-- The accumulation loop never returns an empty list (a final chunk is
always appended). -/
theorem splitterLoop_ne_nil (k : Nat) (tag : List Char) :
    ∀ (ls : List (List Char)) (cur : List Char), splitterLoop k tag ls cur ≠ [] := by
  intro ls
  induction ls with
  | nil => intro cur; simp [splitterLoop_nil]
  | cons l ls ih =>
    intro cur
    rw [splitterLoop_cons]
    by_cases hk : k ≤ (cur ++ l ++ tag).length
    · rw [if_pos hk]
      simp
    · rw [if_neg hk]
      exact ih _

/-- Every chunk emitted inside the loop (all but the final one) has trimmed
length at least `k - tag.length`. -/
theorem splitterLoop_bound (k : Nat) (tag : List Char) :
    ∀ (ls : List (List Char)) (cur : List Char), (∀ l ∈ ls, GoodLine l) → BufOK cur →
      ∀ d ∈ (splitterLoop k tag ls cur).dropLast,
        k ≤ d.page_content.length + tag.length := by
  intro ls
  induction ls with
  | nil =>
    intro cur _ _ d hd
    simp [splitterLoop] at hd
  | cons l ls ih =>
    intro cur hgood hbuf d hd
    rw [splitterLoop_cons] at hd
    by_cases hk : k ≤ (cur ++ l ++ tag).length
    · simp only [hk, if_true] at hd
      obtain ⟨r, rs, hrest⟩ :=
        List.exists_cons_of_ne_nil (splitterLoop_ne_nil k tag ls [])
      rw [hrest, List.dropLast_cons₂, List.mem_cons] at hd
      rcases hd with rfl | hd
      · have hstrip := pyStrip_padded_length cur l tag hbuf
          (hgood l (List.mem_cons_self l ls))
        simp only [List.length_append] at hk
        simp only []
        omega
      · exact ih [] (fun x hx => hgood x (List.mem_cons_of_mem _ hx)) (Or.inl rfl) d
          (by rw [hrest]; exact hd)
    · simp only [hk, if_false] at hd
      exact ih _ (fun x hx => hgood x (List.mem_cons_of_mem _ hx))
        (bufOK_append cur l tag hbuf (hgood l (List.mem_cons_self l ls))) d hd

/-- Every line surviving the filter is non-empty with non-whitespace ends. -/
theorem splitterLines_good (tag full : List Char) :
    ∀ l ∈ splitterLines tag full, GoodLine l := by
  intro l hl
  unfold splitterLines at hl
  rw [List.mem_filter] at hl
  obtain ⟨hmem, hlen⟩ := hl
  rw [List.mem_map] at hmem
  obtain ⟨doc, -, rfl⟩ := hmem
  have : (1 : Nat) < (pyStrip doc).length := by simpa using hlen
  have hne : pyStrip doc ≠ [] := by
    intro h
    rw [h] at this
    simp at this
  exact pyStrip_shape doc hne

theorem splitterLoopEmitted_cons (k : Nat) (tag l cur : List Char)
    (ls : List (List Char)) :
    splitterLoopEmitted k tag (l :: ls) cur =
      if k ≤ (cur ++ l ++ tag).length then
        ⟨pyStrip (cur ++ l ++ tag), []⟩ :: splitterLoopEmitted k tag ls []
      else
        splitterLoopEmitted k tag ls (cur ++ l ++ tag) := rfl

theorem splitterLoopBuffer_cons (k : Nat) (tag l cur : List Char)
    (ls : List (List Char)) :
    splitterLoopBuffer k tag (l :: ls) cur =
      if k ≤ (cur ++ l ++ tag).length then
        splitterLoopBuffer k tag ls []
      else
        splitterLoopBuffer k tag ls (cur ++ l ++ tag) := rfl

/-- The loop output is exactly the loop-emitted chunks followed by one
final chunk holding the trimmed remaining buffer. -/
theorem splitterLoop_decomp (k : Nat) (tag : List Char) :
    ∀ (ls : List (List Char)) (cur : List Char),
      splitterLoop k tag ls cur =
        splitterLoopEmitted k tag ls cur ++
          [⟨pyStrip (splitterLoopBuffer k tag ls cur), []⟩] := by
  intro ls
  induction ls with
  | nil => intro cur; rfl
  | cons l ls ih =>
    intro cur
    rw [splitterLoop_cons, splitterLoopEmitted_cons, splitterLoopBuffer_cons]
    by_cases hk : k ≤ (cur ++ l ++ tag).length
    · rw [if_pos hk, if_pos hk, if_pos hk]
      simp [ih]
    · rw [if_neg hk, if_neg hk, if_neg hk]
      exact ih _

/-! ## Claims C1 and C2 -/
/-- Claim **C1, counterexample.**  The claim "every chunk emitted by
`process_simpler_splitter` except possibly the last has trimmed content
length at least `chunk_size`" fails at `texts = ["ab\ncd"]`,
`chunk_size = 3`, `splitter = "\n"`: the first (non-last) chunk is the
trimmed `"ab\n"`, i.e. `"ab"` of length `2 < 3` (the buffer reached
length 3 only by counting the trailing splitter that trimming removes). -/
theorem process_simpler_splitter_short_chunk_cex :
    ∃ d ∈ (process_simpler_splitter ["ab\ncd".data] [] 3 ['\n']).dropLast,
      d.page_content.length < 3 := by decide

/-- Claim **C1, amended.**  For every input text list, splitter and
`chunk_size > 0`, every chunk emitted by `process_simpler_splitter` except
possibly the last one has trimmed content length at least
`chunk_size - length splitter`: the pre-trim buffer reaches `chunk_size`,
and trimming removes at most the trailing splitter appended after the
last accumulated segment. -/
theorem process_simpler_splitter_chunk_length_bound (texts : List (List Char))
    (metadatas : List (List (String × String))) (chunk_size : Nat)
    (splitter_tag : List Char) (hcs : 0 < chunk_size) :
    ∀ d ∈ (process_simpler_splitter texts metadatas chunk_size splitter_tag).dropLast,
      chunk_size ≤ d.page_content.length + splitter_tag.length :=
  splitterLoop_bound chunk_size splitter_tag
    (splitterLines splitter_tag (pyJoin [' '] texts)) []
    (splitterLines_good splitter_tag (pyJoin [' '] texts)) (Or.inl rfl)

/-- Witness for `process_simpler_splitter_chunk_length_bound` at
`texts = ["ab\ncd"]`, `chunk_size = 3`, `splitter = "\n"`. -/
theorem process_simpler_splitter_chunk_length_bound_witness :
    0 < 3 ∧
      ∀ d ∈ (process_simpler_splitter ["ab\ncd".data] [] 3 ['\n']).dropLast,
        3 ≤ d.page_content.length + (['\n'] : List Char).length :=
  ⟨by decide,
    process_simpler_splitter_chunk_length_bound ["ab\ncd".data] [] 3 ['\n'] (by decide)⟩

/-- Claim **C2, confirmed.**  For every input, after all surviving segments have
been consumed, `process_simpler_splitter` emits exactly one additional
final chunk holding the trimmed remaining buffer (the output is the
loop-emitted chunks followed by that one chunk), so the output is always
non-empty; and the final chunk may be empty after trimming, as at
`texts = ["ab\ncd"]`, `chunk_size = 3`, where the final buffer is the
empty string and an empty chunk is still emitted. -/
theorem process_simpler_splitter_always_final_chunk (texts : List (List Char))
    (metadatas : List (List (String × String))) (chunk_size : Nat)
    (splitter_tag : List Char) :
    (process_simpler_splitter texts metadatas chunk_size splitter_tag =
      splitterLoopEmitted chunk_size splitter_tag
          (splitterLines splitter_tag (pyJoin [' '] texts)) [] ++
        [⟨pyStrip (splitterLoopBuffer chunk_size splitter_tag
          (splitterLines splitter_tag (pyJoin [' '] texts)) []), []⟩]) ∧
    process_simpler_splitter texts metadatas chunk_size splitter_tag ≠ [] ∧
    (process_simpler_splitter ["ab\ncd".data] [] 3 ['\n']).getLast? =
      some ⟨[], []⟩ :=
  ⟨splitterLoop_decomp chunk_size splitter_tag
      (splitterLines splitter_tag (pyJoin [' '] texts)) [],
    splitterLoop_ne_nil chunk_size splitter_tag
      (splitterLines splitter_tag (pyJoin [' '] texts)) [],
    by decide⟩

theorem digitChar_toNat (d : Nat) (h : d < 10) : (digitChar d).toNat = 48 + d := by
  interval_cases d <;> rfl

theorem digitChar_not_space (d : Nat) (h : d < 10) :
    pyCharIsSpace (digitChar d) = false := by
  interval_cases d <;> rfl

theorem natToCharsAux_val :
    ∀ (fuel n : Nat) (acc : List Char), n < fuel →
      digitsVal (natToCharsAux fuel n acc) = n * 10 ^ acc.length + digitsVal acc := by
  intro fuel
  induction fuel with
  | zero => intro n acc h; omega
  | succ fuel ih =>
    intro n acc h
    rw [natToCharsAux]
    by_cases hn : n = 0
    · simp [hn]
    · rw [if_neg hn]
      have hdiv : n / 10 < n := Nat.div_lt_self (by omega) (by omega)
      rw [ih (n / 10) (digitChar (n % 10) :: acc) (by omega)]
      have hmod : (digitChar (n % 10)).toNat = 48 + n % 10 :=
        digitChar_toNat _ (Nat.mod_lt _ (by omega))
      simp only [digitsVal, List.length_cons, hmod]
      have h10 : n = 10 * (n / 10) + n % 10 := (Nat.div_add_mod n 10).symm
      rw [pow_succ]
      conv_rhs => rw [h10]
      have : 48 + n % 10 - 48 = n % 10 := by omega
      rw [this]
      ring

theorem natToCharsAux_digits :
    ∀ (fuel n : Nat) (acc : List Char), n < fuel →
      ∀ c ∈ natToCharsAux fuel n acc, c ∈ acc ∨ ∃ m, m < 10 ∧ c = digitChar m := by
  intro fuel
  induction fuel with
  | zero => intro n acc h; omega
  | succ fuel ih =>
    intro n acc h c hc
    rw [natToCharsAux] at hc
    by_cases hn : n = 0
    · rw [if_pos hn] at hc
      exact Or.inl hc
    · rw [if_neg hn] at hc
      have hdiv : n / 10 < n := Nat.div_lt_self (by omega) (by omega)
      rcases ih (n / 10) (digitChar (n % 10) :: acc) (by omega) c hc with hacc | hdig
      · rcases List.mem_cons.mp hacc with rfl | hacc
        · exact Or.inr ⟨n % 10, Nat.mod_lt _ (by omega), rfl⟩
        · exact Or.inl hacc
      · exact Or.inr hdig

theorem natToChars_val (n : Nat) : digitsVal (natToChars n) = n := by
  unfold natToChars
  by_cases hn : n = 0
  · simp [hn, digitsVal]
  · rw [if_neg hn]
    simpa using natToCharsAux_val (n + 1) n [] (by omega)

theorem natToChars_inj (m n : Nat) (h : natToChars m = natToChars n) : m = n := by
  have := congrArg digitsVal h
  rwa [natToChars_val, natToChars_val] at this

theorem natToChars_digits (n : Nat) :
    ∀ c ∈ natToChars n, ∃ m, m < 10 ∧ c = digitChar m := by
  intro c hc
  unfold natToChars at hc
  by_cases hn : n = 0
  · rw [if_pos hn] at hc
    rcases List.mem_singleton.mp hc with rfl
    exact ⟨0, by omega, rfl⟩
  · rw [if_neg hn] at hc
    rcases natToCharsAux_digits (n + 1) n [] (by omega) c hc with habs | h
    · simp at habs
    · exact h

theorem natToChars_ne_nil (n : Nat) : natToChars n ≠ [] := by
  intro h
  have := natToChars_val n
  rw [h] at this
  simp [digitsVal] at this
  subst this
  simp [natToChars] at h

/-- Concrete trace: `create_collection_name` at dimension 768, project 7. -/
theorem collection_name_trace :
    create_collection_name 768 7 = "Collection_768_7".data := by decide

/-- A string starting and ending in non-whitespace is unchanged by
`pyStrip`. -/
theorem pyStrip_eq_self (c : Char) (mid : List Char) (d : Char)
    (hc : pyCharIsSpace c = false) (hd : pyCharIsSpace d = false) :
    pyStrip (c :: (mid ++ [d])) = c :: (mid ++ [d]) := by
  unfold pyStrip
  have h1 : (c :: (mid ++ [d])).dropWhile pyCharIsSpace = c :: (mid ++ [d]) := by
    rw [List.dropWhile_cons]
    simp [hc]
  rw [h1]
  have h2 : (c :: (mid ++ [d])).reverse = d :: (mid.reverse ++ [c]) := by
    simp
  rw [h2, List.dropWhile_cons]
  simp [hd]

/-- The raw (pre-strip) collection name, split as head character plus a
trailing digit, for `pyStrip_eq_self`. -/
theorem collection_name_raw_strip (d p : Nat) :
    pyStrip ("Collection_".data ++ natToChars d ++ "_".data ++ natToChars p) =
      "Collection_".data ++ natToChars d ++ "_".data ++ natToChars p := by
  have hne := natToChars_ne_nil p
  have hsplit := (List.dropLast_append_getLast hne).symm
  obtain ⟨m, hm, hdig⟩ :=
    natToChars_digits p ((natToChars p).getLast hne) (List.getLast_mem hne)
  have hlastws : pyCharIsSpace ((natToChars p).getLast hne) = false := by
    rw [hdig]
    exact digitChar_not_space m hm
  have hC : "Collection_".data = 'C' :: "ollection_".data := rfl
  have hX : "Collection_".data ++ natToChars d ++ "_".data ++ natToChars p =
      'C' :: (("ollection_".data ++ natToChars d ++ "_".data ++
        (natToChars p).dropLast) ++ [(natToChars p).getLast hne]) := by
    conv_lhs => rw [hsplit, hC]
    simp
  rw [hX, pyStrip_eq_self 'C' _ _ (by decide) hlastws]

/-- Claim **C7, confirmed.**  The collection name is built deterministically as
`f"Collection_{default_vector_size}_{project_id}"`, matching the example
`name(projectId=7, dim=768) = "Collection_768_7"`, and changing only the
dimensionality always yields a different name. -/
theorem create_collection_name_spec :
    create_collection_name 768 7 = "Collection_768_7".data ∧
    ∀ d1 d2 p : Nat, d1 ≠ d2 →
      create_collection_name d1 p ≠ create_collection_name d2 p := by
  refine ⟨by decide, ?_⟩
  intro d1 d2 p hne heq
  unfold create_collection_name at heq
  rw [collection_name_raw_strip, collection_name_raw_strip] at heq
  simp only [List.append_assoc] at heq
  have heq2 := List.append_cancel_left heq
  have hlen : (natToChars d1).length = (natToChars d2).length := by
    have := congrArg List.length heq2
    simp at this
    omega
  exact hne (natToChars_inj _ _ (List.append_inj heq2 hlen).1)

/-- Witness for `create_collection_name_spec`: dimensions 768 and 1024 at
project 7 give different names. -/
theorem create_collection_name_spec_witness :
    (768 : Nat) ≠ 1024 ∧
      create_collection_name 768 7 ≠ create_collection_name 1024 7 :=
  ⟨by decide, create_collection_name_spec.2 768 1024 7 (by decide)⟩

/-- Claim **C9, counterexample.**  The claim "generate_text never mutates the
caller-supplied chat-history list" fails at the concrete call
`generate_text(prompt="hi", chat_history=[])` with a configured model:
the caller's list afterwards is `[{"role": "user", "content": "hi"}]`,
not `[]` — the provider appends in place without copying. -/
theorem generate_text_mutates_history_cex :
    (generate_text (some "gpt-4") (fun _ => some "ok") "hi" []).1 ≠ [] := by
  decide

/-- Claim **C9, amended.**  For every caller-supplied chat-history list,
`generate_text` with a configured model appends exactly one user-role
turn holding the prompt to the caller's list in place: after the call the
caller's list is the original list followed by
`construct_prompt(prompt, "user")`. -/
theorem generate_text_appends_user_turn (model : String)
    (api : List ChatMessage → Option String) (prompt : String)
    (chat_history : List ChatMessage) :
    (generate_text (some model) api prompt chat_history).1 =
      chat_history ++ [construct_prompt prompt "user"] := rfl

/-! ## Claims C3, C4, C6, C8 -/
/-- Looking up a key in a store from which it was just dropped finds
nothing. -/
theorem lookup_filter_ne {β : Type} (name : List Char) :
    ∀ st : List (List Char × β),
      (st.filter fun e => e.1 != name).lookup name = none := by
  intro st
  induction st with
  | nil => rfl
  | cons e es ih =>
    obtain ⟨k, v⟩ := e
    rw [List.filter_cons]
    by_cases he : k = name
    · have hb : ((k, v).1 != name) = false := by
        rw [bne_eq_false_iff_eq]
        exact he
      rw [hb, if_neg (by decide)]
      exact ih
    · have hb : ((k, v).1 != name) = true := by
        rw [bne_iff_ne]
        exact he
      rw [hb, if_pos rfl, List.lookup_cons]
      have hnk : (name == k) = false := beq_eq_false_iff_ne.mpr (Ne.symm he)
      rw [hnk]
      exact ih

/-- Claim **C3, counterexample.**  The claim "search_by_vector on a collection
that was never created returns the explicit not-found result rather than
raising, in both backends" fails in the Qdrant backend: with an empty
store, `search_by_vector` performs no existence check and the client call
raises (here: propagates an error) instead of returning a result value. -/
theorem qdrant_search_missing_collection_raises_cex :
    qdrant_search_by_vector (fun _ _ => 0) [] "Collection_768_7".data [1] 5 =
      .error "ValueError: collection not found" := rfl

/-- Claim **C3, amended.**  In the PGVector backend, `search_by_vector` on a
collection name that was never created returns the explicit "not found"
value (`False`, here `none`) rather than raising, and
`search_vector_db_collection` surfaces that outcome (`False`) identically
to a search over an existing collection with zero matches.  (The Qdrant
backend instead lets the client's exception propagate, see the
counterexample.) -/
theorem pg_search_missing_collection_spec (cfg : PGConfig)
    (cosineDist : List ℚ → List ℚ → ℚ) (st1 st2 : PGState)
    (default_vector_size project_id limit : Nat) (qv : List ℚ)
    (embedOut : Option (List (List ℚ))) (tbl : PGTable)
    (h1 : st1.lookup (create_collection_name default_vector_size project_id) = none)
    (h2 : st2.lookup (create_collection_name default_vector_size project_id) =
      some tbl)
    (hrows : tbl.rows = []) :
    pg_search_by_vector cfg cosineDist st1
        (create_collection_name default_vector_size project_id) qv limit = none ∧
    search_vector_db_collection_pg cfg cosineDist st1 default_vector_size
        project_id embedOut limit = none ∧
    search_vector_db_collection_pg cfg cosineDist st1 default_vector_size
        project_id embedOut limit =
      search_vector_db_collection_pg cfg cosineDist st2 default_vector_size
        project_id embedOut limit := by
  have hs1 : ∀ v : List ℚ, pg_search_by_vector cfg cosineDist st1
      (create_collection_name default_vector_size project_id) v limit = none := by
    intro v
    unfold pg_search_by_vector
    rw [h1]
  have hs2 : ∀ v : List ℚ, pg_search_by_vector cfg cosineDist st2
      (create_collection_name default_vector_size project_id) v limit =
        some [] := by
    intro v
    unfold pg_search_by_vector
    rw [h2]
    simp [hrows]
  have hc : ∀ st : PGState,
      ((∀ v : List ℚ, pg_search_by_vector cfg cosineDist st
        (create_collection_name default_vector_size project_id) v limit = none) ∨
       (∀ v : List ℚ, pg_search_by_vector cfg cosineDist st
        (create_collection_name default_vector_size project_id) v limit = some [])) →
      search_vector_db_collection_pg cfg cosineDist st default_vector_size
        project_id embedOut limit = none := by
    intro st hsearch
    unfold search_vector_db_collection_pg
    cases embedOut with
    | none => rfl
    | some vectors =>
      by_cases hv : vectors.length = 0
      · simp [hv]
      · cases hhead : vectors.head? with
        | none => simp [hv, hhead]
        | some query_vector =>
          by_cases hq : query_vector.length = 0
          · have hq' : query_vector = [] := List.length_eq_zero.mp hq
            simp [hv, hhead, hq']
          · have hq' : query_vector ≠ [] := by
              intro hnil
              rw [hnil] at hq
              simp at hq
            rcases hsearch with hnone | hempty
            · simp [hv, hhead, hq', hnone query_vector]
            · simp [hv, hhead, hq', hempty query_vector]
  have hc1 := hc st1 (Or.inl hs1)
  have hc2 := hc st2 (Or.inr hs2)
  exact ⟨hs1 qv, hc1, hc1.trans hc2.symm⟩

/-- Witness for `pg_search_missing_collection_spec`: empty store versus a
store holding the empty collection `Collection_768_7`. -/
theorem pg_search_missing_collection_spec_witness :
    (([] : PGState).lookup (create_collection_name 768 7) = none) ∧
    (([(create_collection_name 768 7, emptyPGTable 4)] : PGState).lookup
        (create_collection_name 768 7) = some (emptyPGTable 4)) ∧
    (emptyPGTable 4).rows = [] ∧
    (pg_search_by_vector ⟨none, 100⟩ (fun _ _ => 0) []
        (create_collection_name 768 7) [1] 5 = none ∧
      search_vector_db_collection_pg ⟨none, 100⟩ (fun _ _ => 0) [] 768 7
          (some [[1]]) 5 = none ∧
      search_vector_db_collection_pg ⟨none, 100⟩ (fun _ _ => 0) [] 768 7
          (some [[1]]) 5 =
        search_vector_db_collection_pg ⟨none, 100⟩ (fun _ _ => 0)
          [(create_collection_name 768 7, emptyPGTable 4)] 768 7
          (some [[1]]) 5) :=
  ⟨rfl, by simp [List.lookup_cons], rfl,
    pg_search_missing_collection_spec ⟨none, 100⟩ (fun _ _ => 0) []
      [(create_collection_name 768 7, emptyPGTable 4)] 768 7 5 [1]
      (some [[1]]) (emptyPGTable 4) rfl (by simp [List.lookup_cons]) rfl⟩

/-- Claim **C4.**  `create_collection(name, size, do_reset=True)`:

* in the PGVector backend the collection is unconditionally dropped and
  recreated: the resulting store holds a fresh empty table (row count 0)
  under the name, and the call returns `True` — for every prior state;
* in the Qdrant backend the drop and the existence check are un-awaited
  coroutines (see `qdrant_create_collection`), so on a collection holding
  three points the call leaves all three points in place and returns
  `False` instead of resetting — evaluated here on that failing input. -/
theorem create_collection_reset_spec :
    (∀ (st : PGState) (name : List Char) (size : Nat),
        pg_create_collection st name size true =
          ((name, emptyPGTable size) :: (st.filter fun e => e.1 != name), true)) ∧
    (qdrant_create_collection
        [("Collection_768_7".data, ⟨4, some "Cosine",
          [⟨some 1, [1], "a", .mNone⟩, ⟨some 2, [2], "b", .mNone⟩,
            ⟨some 3, [3], "c", .mNone⟩]⟩)]
        "Collection_768_7".data 4 true =
      ([("Collection_768_7".data, ⟨4, some "Cosine",
          [⟨some 1, [1], "a", .mNone⟩, ⟨some 2, [2], "b", .mNone⟩,
            ⟨some 3, [3], "c", .mNone⟩]⟩)], false)) := by
  constructor
  · intro st name size
    unfold pg_create_collection pg_delete_collection pg_is_collection_existed
    simp [lookup_filter_ne]
  · rfl

/-- Claim **C6, counterexample.**  The claim "whenever
`len(vectors) != len(record_ids)`, insert_many reports a failure and no
records are written, in both backends" fails in the Qdrant backend: with
`texts = ["a"]`, `vectors = [[1]]` and two record ids, the call succeeds
(`True`) and writes one record — the violation is silently ignored. -/
theorem qdrant_insert_many_mismatch_silent_cex :
    qdrant_insert_many [("c".data, ⟨1, none, []⟩)] "c".data
        ["a"] [[1]] none (some [1, 2]) 50 =
      .ok ([("c".data, ⟨1, none, [⟨some 1, [1], "a", QMeta.mInt 0⟩]⟩)], true) :=
  rfl

/-- Claim **C6, amended.**  In the PGVector backend, every call to `insert_many`
with `len(vectors) != len(record_ids)` returns `False` and leaves the
store unchanged (no records written).  The Qdrant backend performs no
such check: a longer `record_ids` succeeds silently (see the
counterexample), and a shorter one raises an uncaught `IndexError` after
the earlier batches were already written. -/
theorem pg_insert_many_length_mismatch (cfg : PGConfig) (st : PGState)
    (collection_name : List Char) (texts : List String)
    (vectors : List (List ℚ)) (metadata : Option (List (Option String)))
    (record_ids : List Int) (batch_size : Nat)
    (h : vectors.length ≠ record_ids.length) :
    pg_insert_many cfg st collection_name texts vectors metadata record_ids
      batch_size = .ok (st, false) := by
  unfold pg_insert_many
  by_cases hex : pg_is_collection_existed st collection_name = false
  · rw [if_pos hex]
  · rw [if_neg hex, if_pos h]

/-- Witness for `pg_insert_many_length_mismatch`: one vector, zero record
ids. -/
theorem pg_insert_many_length_mismatch_witness :
    ([[(1 : ℚ)]].length ≠ ([] : List Int).length) ∧
      pg_insert_many ⟨none, 100⟩ [] "c".data [] [[1]] none [] 50 =
        .ok ([], false) :=
  ⟨by decide,
    pg_insert_many_length_mismatch ⟨none, 100⟩ [] "c".data [] [[1]] none [] 50
      (by decide)⟩

/-- Claim **C8.**  When retrieval yields no documents,
`answer_rag_question` returns a bare `None`; the `/index/answer` route
then destructures it into `answer, full_prompt, chat_history`, which
raises an uncaught `TypeError` at the request boundary instead of
producing the `RAG_ANSWER_ERROR` response the route's own (unreachable)
error branch was written to return. -/
theorem answer_rag_route_none_typeerror (cfg : PGConfig)
    (cosineDist : List ℚ → List ℚ → ℚ) (st : PGState)
    (default_vector_size project_id : Nat) (query : String) (limit : Nat)
    (embedOut : Option (List (List ℚ)))
    (system_prompt : String) (document_prompt : Nat → String → String)
    (footer_prompt : String → String) (process_prompt : String → String)
    (generation_model_id : Option String)
    (api : List ChatMessage → Option String)
    (h : search_vector_db_collection_pg cfg cosineDist st default_vector_size
      project_id embedOut limit = none) :
    answer_rag_route_pg cfg cosineDist st default_vector_size project_id query
        limit embedOut system_prompt document_prompt footer_prompt
        process_prompt generation_model_id api =
      .error "TypeError: cannot unpack non-iterable NoneType object" := by
  unfold answer_rag_route_pg answer_rag_question_pg
  rw [h]

/-- Witness for `answer_rag_route_none_typeerror`: an empty store (the
collection was never created), so retrieval returns the `False`
outcome and the route raises. -/
theorem answer_rag_route_none_typeerror_witness :
    (search_vector_db_collection_pg ⟨none, 100⟩ (fun _ _ => 0) [] 768 7
        (some [[1]]) 5 = none) ∧
      answer_rag_route_pg ⟨none, 100⟩ (fun _ _ => 0) [] 768 7 "q" 5
          (some [[1]]) "sys" (fun _ _ => "doc") (fun _ => "footer")
          (fun s => s) (some "gpt") (fun _ => some "answer") =
        .error "TypeError: cannot unpack non-iterable NoneType object" :=
  ⟨rfl,
    answer_rag_route_none_typeerror ⟨none, 100⟩ (fun _ _ => 0) [] 768 7 "q" 5
      (some [[1]]) "sys" (fun _ _ => "doc") (fun _ => "footer") (fun s => s)
      (some "gpt") (fun _ => some "answer") rfl⟩

/-! ## Claim C10 -/
/-- Claim **C10, confirmed.**  In the PGVector backend:

* `search_by_vector` is independent of the configured `distance_method`
  (and `index_threshold`): the SQL always computes
  `1 - (vector <=> :vector)` — one minus cosine distance — whatever the
  provider was configured with;
* every returned result list is ordered by that score descending, holds
  at most `limit` documents, and each document carries score
  `1 - cosineDist(row.vector, query)` for some stored row;
* the configured `distance_method` does reach secondary index creation:
  when `create_vector_index` actually builds the index, the index records
  `cfg.distance_method` as its operator class. -/
theorem pg_search_ranking_spec (cfg cfg' : PGConfig)
    (cosineDist : List ℚ → List ℚ → ℚ) (st : PGState)
    (collection_name : List Char) (qv : List ℚ) (limit : Nat) :
    pg_search_by_vector cfg cosineDist st collection_name qv limit =
      pg_search_by_vector cfg' cosineDist st collection_name qv limit ∧
    (∀ tbl docs, st.lookup collection_name = some tbl →
      pg_search_by_vector cfg cosineDist st collection_name qv limit =
        some docs →
      docs.Sorted scoreDesc ∧ docs.length ≤ limit ∧
        ∀ d ∈ docs, ∃ r ∈ tbl.rows,
          d = RetrievedDocument.mk r.text (1 - cosineDist r.vector qv)) ∧
    (∀ tbl, st.lookup collection_name = some tbl → tbl.vectorIndex = none →
      cfg.index_threshold ≤ tbl.rows.length →
      pg_create_vector_index cfg st collection_name "hnsw" =
        pgReplace st collection_name
          { tbl with vectorIndex := some ("hnsw", cfg.distance_method) }) := by
  refine ⟨rfl, ?_, ?_⟩
  · intro tbl docs hlookup hsearch
    have hdocs : docs = ((tbl.rows.map fun r =>
        RetrievedDocument.mk r.text (1 - cosineDist r.vector qv)).insertionSort
          scoreDesc).take limit := by
      unfold pg_search_by_vector at hsearch
      rw [hlookup] at hsearch
      exact (Option.some.inj hsearch).symm
    refine ⟨?_, ?_, ?_⟩
    · rw [hdocs]
      exact List.Pairwise.sublist (List.take_sublist _ _)
        (List.sorted_insertionSort scoreDesc _)
    · rw [hdocs, List.length_take]
      exact min_le_left _ _
    · intro d hd
      rw [hdocs] at hd
      have h2 := (List.take_sublist _ _).subset hd
      rw [(List.perm_insertionSort scoreDesc _).mem_iff] at h2
      obtain ⟨r, hr, hrd⟩ := List.mem_map.mp h2
      exact ⟨r, hr, hrd.symm⟩
  · intro tbl hlookup hidx hthr
    unfold pg_create_vector_index
    rw [hlookup]
    simp only [hidx, Option.isSome_none, Bool.false_eq_true, if_false]
    rw [if_neg (by omega)]

/-- Witness for `pg_search_ranking_spec`: one stored row, two different
provider configurations. -/
theorem pg_search_ranking_spec_witness :
    (pg_search_by_vector ⟨some "vector_cosine_ops", 1⟩ (fun _ _ => 0)
        [("c".data, ⟨2, 2, [⟨1, "t", [1, 0], none, 5⟩], none⟩)] "c".data [1] 5 =
      pg_search_by_vector ⟨some "vector_l2_ops", 200⟩ (fun _ _ => 0)
        [("c".data, ⟨2, 2, [⟨1, "t", [1, 0], none, 5⟩], none⟩)] "c".data [1] 5) ∧
    ([RetrievedDocument.mk "t" 1].Sorted scoreDesc ∧
      [RetrievedDocument.mk "t" 1].length ≤ 5 ∧
      ∀ d ∈ [RetrievedDocument.mk "t" 1],
        ∃ r ∈ [(⟨1, "t", [1, 0], none, 5⟩ : PGRow)],
          d = RetrievedDocument.mk r.text (1 - (fun _ _ => (0 : ℚ)) r.vector [1])) ∧
    (pg_create_vector_index ⟨some "vector_cosine_ops", 1⟩
        [("c".data, ⟨2, 2, [⟨1, "t", [1, 0], none, 5⟩], none⟩)] "c".data "hnsw" =
      pgReplace [("c".data, ⟨2, 2, [⟨1, "t", [1, 0], none, 5⟩], none⟩)] "c".data
        ⟨2, 2, [⟨1, "t", [1, 0], none, 5⟩],
          some ("hnsw", some "vector_cosine_ops")⟩) :=
  ⟨(pg_search_ranking_spec ⟨some "vector_cosine_ops", 1⟩
      ⟨some "vector_l2_ops", 200⟩ (fun _ _ => 0)
      [("c".data, ⟨2, 2, [⟨1, "t", [1, 0], none, 5⟩], none⟩)] "c".data [1] 5).1,
    (pg_search_ranking_spec ⟨some "vector_cosine_ops", 1⟩
      ⟨some "vector_l2_ops", 200⟩ (fun _ _ => 0)
      [("c".data, ⟨2, 2, [⟨1, "t", [1, 0], none, 5⟩], none⟩)] "c".data [1] 5).2.1
      ⟨2, 2, [⟨1, "t", [1, 0], none, 5⟩], none⟩ [RetrievedDocument.mk "t" 1]
      (by simp [List.lookup_cons])
      (by simp [pg_search_by_vector, List.lookup_cons, List.insertionSort,
        List.orderedInsert]),
    (pg_search_ranking_spec ⟨some "vector_cosine_ops", 1⟩
      ⟨some "vector_l2_ops", 200⟩ (fun _ _ => 0)
      [("c".data, ⟨2, 2, [⟨1, "t", [1, 0], none, 5⟩], none⟩)] "c".data [1] 5).2.2
      ⟨2, 2, [⟨1, "t", [1, 0], none, 5⟩], none⟩
      (by simp [List.lookup_cons]) rfl (by decide)⟩

/-! ## Store and batching lemmas (for C5) -/
theorem lookup_mapReplace {β : Type} (name : List Char) (b : β) :
    ∀ (st : List (List Char × β)) (b0 : β), st.lookup name = some b0 →
      (mapReplace st name b).lookup name = some b := by
  intro st
  induction st with
  | nil => intro b0 h; simp at h
  | cons e es ih =>
    intro b0 h
    obtain ⟨k, v⟩ := e
    have hcons : mapReplace ((k, v) :: es) name b =
        (if k = name then (name, b) else (k, v)) :: mapReplace es name b := rfl
    rw [hcons]
    by_cases he : k = name
    · rw [if_pos he, List.lookup_cons]
      simp
    · rw [if_neg he]
      rw [List.lookup_cons] at h ⊢
      have hnk : (name == k) = false := beq_eq_false_iff_ne.mpr (Ne.symm he)
      rw [hnk] at h ⊢
      exact ih b0 h

theorem mapReplace_mapReplace {β : Type} (name : List Char) (b1 b2 : β)
    (st : List (List Char × β)) :
    mapReplace (mapReplace st name b1) name b2 = mapReplace st name b2 := by
  unfold mapReplace
  rw [List.map_map]
  apply List.map_congr_left
  intro e _
  by_cases he : e.1 = name
  · simp [he]
  · simp [he]

theorem keys_mapReplace {β : Type} (name : List Char) (b : β)
    (st : List (List Char × β)) :
    (mapReplace st name b).map Prod.fst = st.map Prod.fst := by
  unfold mapReplace
  rw [List.map_map]
  apply List.map_congr_left
  intro e _
  by_cases he : e.1 = name
  · simp [he]
  · simp [he]

theorem mapReplace_not_mem {β : Type} (name : List Char) (b : β) :
    ∀ st : List (List Char × β), name ∉ st.map Prod.fst →
      mapReplace st name b = st := by
  intro st
  induction st with
  | nil => intro _; rfl
  | cons e es ih =>
    intro h
    rw [List.map_cons, List.mem_cons] at h
    push_neg at h
    have hcons : mapReplace (e :: es) name b =
        (if e.1 = name then (name, b) else e) :: mapReplace es name b := rfl
    rw [hcons, if_neg (fun hh => h.1 hh.symm), ih h.2]

theorem mapReplace_self {β : Type} (name : List Char) :
    ∀ (st : List (List Char × β)) (b : β), (st.map Prod.fst).Nodup →
      st.lookup name = some b → mapReplace st name b = st := by
  intro st
  induction st with
  | nil => intro b _ h; simp at h
  | cons e es ih =>
    intro b hnd h
    obtain ⟨k, v⟩ := e
    rw [List.map_cons, List.nodup_cons] at hnd
    obtain ⟨hk, hnd'⟩ := hnd
    rw [List.lookup_cons] at h
    have hcons : mapReplace ((k, v) :: es) name b =
        (if k = name then (name, b) else (k, v)) :: mapReplace es name b := rfl
    rw [hcons]
    by_cases he : k = name
    · have hbk : (name == k) = true := by simp [he]
      rw [hbk] at h
      have hbv : b = v := by simpa using h.symm
      have hmem : name ∉ es.map Prod.fst := he ▸ hk
      rw [if_pos he, mapReplace_not_mem name b es hmem, hbv, he]
    · have hbk : (name == k) = false := beq_eq_false_iff_ne.mpr (Ne.symm he)
      rw [hbk] at h
      rw [if_neg he, ih b hnd' h]

theorem zip4With_take_drop {α β γ δ ε : Type} (f : α → β → γ → δ → ε) :
    ∀ (n : Nat) (as : List α) (bs : List β) (cs : List γ) (ds : List δ),
      zip4With f (as.take n) (bs.take n) (cs.take n) (ds.take n) ++
        zip4With f (as.drop n) (bs.drop n) (cs.drop n) (ds.drop n) =
      zip4With f as bs cs ds := by
  intro n
  induction n with
  | zero => intro as bs cs ds; simp [zip4With]
  | succ n ih =>
    intro as bs cs ds
    cases as with
    | nil => simp [zip4With]
    | cons a as =>
      cases bs with
      | nil => simp [zip4With]
      | cons b bs =>
        cases cs with
        | nil => simp [zip4With]
        | cons c cs =>
          cases ds with
          | nil => simp [zip4With]
          | cons d ds =>
            simp only [List.take_succ_cons, List.drop_succ_cons, zip4With,
              List.cons_append]
            rw [ih]

theorem pgInsertLoop_cons (name : List Char) (bpred fuel : Nat) (t : String)
    (ts : List String) (vectors : List (List ℚ)) (metadata : List (Option String))
    (record_ids : List Int) (st : PGState) :
    pgInsertLoop name bpred (fuel + 1) (t :: ts) vectors metadata record_ids st =
      pgInsertLoop name bpred fuel ((t :: ts).drop (bpred + 1))
        (vectors.drop (bpred + 1)) (metadata.drop (bpred + 1))
        (record_ids.drop (bpred + 1))
        (match st.lookup name with
          | some tbl => pgReplace st name (pgAppendRows tbl
              (pgZipValues ((t :: ts).take (bpred + 1)) (vectors.take (bpred + 1))
                (metadata.take (bpred + 1)) (record_ids.take (bpred + 1))))
          | none => st) := rfl

theorem length_rows_pgAppendRows (tbl : PGTable)
    (vals : List (String × List ℚ × Option String × Int)) :
    (pgAppendRows tbl vals).rows.length = tbl.rows.length + vals.length := by
  simp [pgAppendRows]

/-- Each pass of the `insert_many` batch loop appends exactly the zipped
value rows to the named table. -/
theorem pgInsertLoop_count (name : List Char) (bpred : Nat) :
    ∀ (fuel : Nat) (texts : List String) (vectors : List (List ℚ))
      (metadata : List (Option String)) (record_ids : List Int) (st : PGState)
      (tbl : PGTable),
      texts.length < fuel → st.lookup name = some tbl →
      ∃ tblf,
        (pgInsertLoop name bpred fuel texts vectors metadata record_ids
          st).lookup name = some tblf ∧
        tblf.rows.length = tbl.rows.length +
          (pgZipValues texts vectors metadata record_ids).length := by
  intro fuel
  induction fuel with
  | zero => intro texts _ _ _ _ _ h _; omega
  | succ fuel ih =>
    intro texts vectors metadata record_ids st tbl hfuel hlookup
    cases texts with
    | nil =>
      exact ⟨tbl, hlookup, by simp [pgZipValues, zip4With]⟩
    | cons t ts =>
      rw [pgInsertLoop_cons, hlookup]
      set vals := pgZipValues ((t :: ts).take (bpred + 1))
        (vectors.take (bpred + 1)) (metadata.take (bpred + 1))
        (record_ids.take (bpred + 1)) with hvals
      have hlookup' : (pgReplace st name (pgAppendRows tbl vals)).lookup name =
          some (pgAppendRows tbl vals) :=
        lookup_mapReplace name _ st tbl hlookup
      have hfuel' : ((t :: ts).drop (bpred + 1)).length < fuel := by
        simp only [List.length_drop, List.length_cons]
        simp only [List.length_cons] at hfuel
        omega
      obtain ⟨tblf, hf1, hf2⟩ := ih ((t :: ts).drop (bpred + 1))
        (vectors.drop (bpred + 1)) (metadata.drop (bpred + 1))
        (record_ids.drop (bpred + 1)) _ _ hfuel' hlookup'
      refine ⟨tblf, hf1, ?_⟩
      rw [hf2, length_rows_pgAppendRows]
      have htd := congrArg List.length (zip4With_take_drop
        (fun (t : String) (v : List ℚ) (m : Option String) (i : Int) => (t, v, m, i))
        (bpred + 1) (t :: ts) vectors metadata record_ids)
      rw [List.length_append] at htd
      have hvlen := congrArg List.length hvals
      simp only [pgZipValues] at hvlen ⊢
      omega

/-- The `create_vector_index` never changes the rows of the named table. -/
theorem pg_create_vector_index_rows (cfg : PGConfig) (st : PGState)
    (name : List Char) (index_type : String) (tbl : PGTable)
    (h : st.lookup name = some tbl) :
    ∃ tbl', (pg_create_vector_index cfg st name index_type).lookup name =
        some tbl' ∧ tbl'.rows = tbl.rows := by
  by_cases hidx : tbl.vectorIndex.isSome = true
  · have he : pg_create_vector_index cfg st name index_type = st := by
      unfold pg_create_vector_index
      rw [h]
      simp [hidx]
    rw [he]
    exact ⟨tbl, h, rfl⟩
  · by_cases hthr : tbl.rows.length < cfg.index_threshold
    · have he : pg_create_vector_index cfg st name index_type = st := by
        unfold pg_create_vector_index
        rw [h]
        simp [hidx, hthr]
      rw [he]
      exact ⟨tbl, h, rfl⟩
    · have he : pg_create_vector_index cfg st name index_type =
          pgReplace st name
            { tbl with vectorIndex := some (index_type, cfg.distance_method) } := by
        unfold pg_create_vector_index
        rw [h]
        simp [hidx, hthr]
      rw [he]
      exact ⟨_, lookup_mapReplace name _ st tbl h, rfl⟩

/-- PG half of C5: a successful `insert_many` run appends the batch's
zipped value rows (fresh bigserial ids) to the table — whatever rows were
already there, so re-running with the same record ids grows the table
again instead of upserting. -/
theorem pg_insert_many_appends (cfg : PGConfig) (st : PGState)
    (collection_name : List Char) (texts : List String)
    (vectors : List (List ℚ)) (metadata : Option (List (Option String)))
    (record_ids : List Int) (batch_size : Nat) (tbl : PGTable)
    (hex : st.lookup collection_name = some tbl)
    (hlen : vectors.length = record_ids.length) (hbs : 0 < batch_size) :
    ∃ st' tbl',
      pg_insert_many cfg st collection_name texts vectors metadata record_ids
        batch_size = .ok (st', true) ∧
      st'.lookup collection_name = some tbl' ∧
      tbl'.rows.length = tbl.rows.length +
        (pgZipValues texts vectors (pgDefaultMetadata metadata texts.length)
          record_ids).length := by
  unfold pg_insert_many
  have hex' : pg_is_collection_existed st collection_name = true := by
    unfold pg_is_collection_existed
    rw [hex]
    rfl
  rw [hex']
  rw [if_neg (by simp)]
  rw [if_neg (by omega)]
  cases batch_size with
  | zero => omega
  | succ bpred =>
    obtain ⟨tblf, hf1, hf2⟩ := pgInsertLoop_count collection_name bpred
      (texts.length + 1) texts vectors
      (pgDefaultMetadata metadata texts.length) record_ids st tbl
      (by omega) hex
    obtain ⟨tbl', h1, h2⟩ := pg_create_vector_index_rows cfg _ collection_name
      "hnsw" tblf hf1
    refine ⟨_, tbl', rfl, h1, ?_⟩
    rw [congrArg List.length h2, hf2]

theorem qUpsertPoint_settled (ps : List QPoint) (r : QPoint) :
    qSettled (qUpsertPoint ps r) r := by
  unfold qUpsertPoint
  by_cases h : (ps.any fun p => p.id == r.id) = true
  · rw [if_pos h]
    obtain ⟨p0, hp0, hid⟩ := List.any_eq_true.mp h
    have hid' : p0.id = r.id := by simpa using hid
    constructor
    · exact ⟨r, List.mem_map.mpr ⟨p0, hp0, by rw [if_pos hid']⟩, rfl⟩
    · intro p hp hpid
      obtain ⟨q, hq, hqe⟩ := List.mem_map.mp hp
      by_cases hqid : q.id = r.id
      · rw [if_pos hqid] at hqe
        exact hqe.symm
      · rw [if_neg hqid] at hqe
        subst hqe
        exact absurd hpid hqid
  · rw [if_neg h]
    constructor
    · exact ⟨r, List.mem_append_right _ (List.mem_singleton.mpr rfl), rfl⟩
    · intro p hp hpid
      rcases List.mem_append.mp hp with hps | hr
      · exact absurd (List.any_eq_true.mpr ⟨p, hps, by simpa using hpid⟩) h
      · exact List.mem_singleton.mp hr

theorem qUpsertPoint_settled_preserve (ps : List QPoint) (r s : QPoint)
    (hset : qSettled ps r) (hne : s.id ≠ r.id) :
    qSettled (qUpsertPoint ps s) r := by
  obtain ⟨⟨p0, hp0, hp0id⟩, hall⟩ := hset
  have hp0s : ¬p0.id = s.id := by
    rw [hp0id]
    exact fun hh => hne hh.symm
  unfold qUpsertPoint
  by_cases h : (ps.any fun p => p.id == s.id) = true
  · rw [if_pos h]
    constructor
    · exact ⟨p0, List.mem_map.mpr ⟨p0, hp0, by rw [if_neg hp0s]⟩, hp0id⟩
    · intro p hp hpid
      obtain ⟨q, hq, hqe⟩ := List.mem_map.mp hp
      by_cases hqid : q.id = s.id
      · rw [if_pos hqid] at hqe
        subst hqe
        exact absurd hpid hne
      · rw [if_neg hqid] at hqe
        subst hqe
        exact hall q hq hpid
  · rw [if_neg h]
    constructor
    · exact ⟨p0, List.mem_append_left _ hp0, hp0id⟩
    · intro p hp hpid
      rcases List.mem_append.mp hp with hps | hr
      · exact hall p hps hpid
      · rw [List.mem_singleton.mp hr] at hpid
        exact absurd hpid hne

theorem qUpsertPoint_absorb (ps : List QPoint) (r : QPoint)
    (h : qSettled ps r) : qUpsertPoint ps r = ps := by
  obtain ⟨⟨p0, hp0, hp0id⟩, hall⟩ := h
  unfold qUpsertPoint
  rw [if_pos (List.any_eq_true.mpr ⟨p0, hp0, by simpa using hp0id⟩)]
  have hcongr : ∀ p ∈ ps, (if p.id = r.id then r else p) = p := by
    intro p hp
    by_cases hid : p.id = r.id
    · rw [if_pos hid]
      exact (hall p hp hid).symm
    · rw [if_neg hid]
  calc ps.map (fun p => if p.id = r.id then r else p) = ps.map id :=
        List.map_congr_left hcongr
    _ = ps := List.map_id ps

theorem qUpsertMany_settled (rs : List QPoint) :
    ∀ (ps : List QPoint) (r : QPoint), qSettled ps r →
      (∀ s ∈ rs, s.id ≠ r.id) → qSettled (qUpsertMany ps rs) r := by
  induction rs with
  | nil => intro ps r h _; exact h
  | cons s rt ih =>
    intro ps r h hne
    have hfold : qUpsertMany ps (s :: rt) = qUpsertMany (qUpsertPoint ps s) rt :=
      rfl
    rw [hfold]
    exact ih (qUpsertPoint ps s) r
      (qUpsertPoint_settled_preserve ps r s h (hne s (List.mem_cons_self s rt)))
      fun x hx => hne x (List.mem_cons_of_mem _ hx)

theorem qUpsertMany_append (ps a b : List QPoint) :
    qUpsertMany ps (a ++ b) = qUpsertMany (qUpsertMany ps a) b := by
  unfold qUpsertMany
  rw [List.foldl_append]

/-- Replaying an upsert batch with pairwise-distinct ids is the
identity. -/
theorem qUpsertMany_replay :
    ∀ (rs : List QPoint) (ps : List QPoint), (rs.map QPoint.id).Nodup →
      qUpsertMany (qUpsertMany ps rs) rs = qUpsertMany ps rs := by
  intro rs
  induction rs with
  | nil => intro ps _; rfl
  | cons r rt ih =>
    intro ps hnd
    rw [List.map_cons, List.nodup_cons] at hnd
    obtain ⟨hnotin, hnd'⟩ := hnd
    have hfold : ∀ (x : List QPoint), qUpsertMany x (r :: rt) =
        qUpsertMany (qUpsertPoint x r) rt := fun _ => rfl
    rw [hfold, hfold]
    have hset : qSettled (qUpsertMany (qUpsertPoint ps r) rt) r := by
      apply qUpsertMany_settled
      · exact qUpsertPoint_settled ps r
      · intro s hs hsid
        exact hnotin (hsid ▸ List.mem_map_of_mem QPoint.id hs)
    rw [qUpsertPoint_absorb _ _ hset]
    exact ih (qUpsertPoint ps r) hnd'

theorem qdrantMakeRecords_ok :
    ∀ (texts : List String) (vectors : List (List ℚ)) (metadata : List QMeta)
      (record_ids : List (Option Int)),
      texts.length ≤ vectors.length → texts.length ≤ metadata.length →
      texts.length ≤ record_ids.length →
      qdrantMakeRecords texts vectors metadata record_ids =
        .ok (qdrantRecordsOf texts vectors metadata record_ids) := by
  intro texts
  induction texts with
  | nil => intro v m i _ _ _; rfl
  | cons t ts ih =>
    intro v m i hv hm hi
    cases v with
    | nil => simp at hv
    | cons v0 vs =>
      cases m with
      | nil => simp at hm
      | cons m0 ms =>
        cases i with
        | nil => simp at hi
        | cons i0 is =>
          have hcons : qdrantMakeRecords (t :: ts) (v0 :: vs) (m0 :: ms)
              (i0 :: is) =
              (qdrantMakeRecords ts vs ms is).map
                fun rs => QPoint.mk i0 v0 t m0 :: rs := rfl
          rw [hcons, ih vs ms is (by simpa using hv) (by simpa using hm)
            (by simpa using hi)]
          rfl

theorem qdrantRecordsOf_ids :
    ∀ (texts : List String) (vectors : List (List ℚ)) (metadata : List QMeta)
      (record_ids : List (Option Int)),
      texts.length ≤ vectors.length → texts.length ≤ metadata.length →
      texts.length ≤ record_ids.length →
      (qdrantRecordsOf texts vectors metadata record_ids).map QPoint.id =
        record_ids.take texts.length := by
  intro texts
  induction texts with
  | nil => intro v m i _ _ _; rfl
  | cons t ts ih =>
    intro v m i hv hm hi
    cases v with
    | nil => simp at hv
    | cons v0 vs =>
      cases m with
      | nil => simp at hm
      | cons m0 ms =>
        cases i with
        | nil => simp at hi
        | cons i0 is =>
          have hcons : qdrantRecordsOf (t :: ts) (v0 :: vs) (m0 :: ms)
              (i0 :: is) =
              QPoint.mk i0 v0 t m0 :: qdrantRecordsOf ts vs ms is := rfl
          rw [hcons, List.map_cons,
            ih vs ms is (by simpa using hv) (by simpa using hm)
              (by simpa using hi)]
          rfl

theorem qAfterUpsert_append (c : QCollection) (a b : List QPoint) :
    qAfterUpsert c (a ++ b) = qAfterUpsert (qAfterUpsert c a) b := by
  unfold qAfterUpsert
  rw [qUpsertMany_append]

/-- The batch loop of the Qdrant `insert_many` over an existing collection
is one big in-order upsert of all the records. -/
theorem qdrantInsertLoop_spec (name : List Char) (bpred : Nat) :
    ∀ (fuel : Nat) (texts : List String) (vectors : List (List ℚ))
      (metadata : List QMeta) (record_ids : List (Option Int))
      (st : QdrantState) (c : QCollection),
      texts.length < fuel →
      texts.length ≤ vectors.length → texts.length ≤ metadata.length →
      texts.length ≤ record_ids.length →
      (st.map Prod.fst).Nodup → st.lookup name = some c →
      qdrantInsertLoop name bpred fuel texts vectors metadata record_ids st =
        .ok (qReplace st name
          (qAfterUpsert c (qdrantRecordsOf texts vectors metadata record_ids)),
          true) := by
  intro fuel
  induction fuel with
  | zero => intro texts _ _ _ _ _ hfuel; omega
  | succ fuel ih =>
    intro texts vectors metadata record_ids st c hfuel hv hm hi hkeys hlookup
    cases texts with
    | nil =>
      have h1 : qdrantRecordsOf [] vectors metadata record_ids = [] := rfl
      rw [h1]
      have h2 : qAfterUpsert c [] = c := rfl
      rw [h2]
      have h4 : qReplace st name c = st :=
        mapReplace_self name st c hkeys hlookup
      rw [h4]
      rfl
    | cons t ts =>
      set R1 := qdrantRecordsOf ((t :: ts).take (bpred + 1))
        (vectors.take (bpred + 1)) (metadata.take (bpred + 1))
        (record_ids.take (bpred + 1)) with hR1
      set R2 := qdrantRecordsOf ((t :: ts).drop (bpred + 1))
        (vectors.drop (bpred + 1)) (metadata.drop (bpred + 1))
        (record_ids.drop (bpred + 1)) with hR2
      have htv : ((t :: ts).take (bpred + 1)).length ≤
          (vectors.take (bpred + 1)).length := by
        rw [List.length_take, List.length_take]
        simp only [List.length_cons] at hv ⊢
        omega
      have htm : ((t :: ts).take (bpred + 1)).length ≤
          (metadata.take (bpred + 1)).length := by
        rw [List.length_take, List.length_take]
        simp only [List.length_cons] at hm ⊢
        omega
      have hti : ((t :: ts).take (bpred + 1)).length ≤
          (record_ids.take (bpred + 1)).length := by
        rw [List.length_take, List.length_take]
        simp only [List.length_cons] at hi ⊢
        omega
      have hrec := qdrantMakeRecords_ok ((t :: ts).take (bpred + 1))
        (vectors.take (bpred + 1)) (metadata.take (bpred + 1))
        (record_ids.take (bpred + 1)) htv htm hti
      rw [← hR1] at hrec
      have hup : qdrant_client_upload_records st name R1 =
          .ok (qReplace st name (qAfterUpsert c R1)) := by
        unfold qdrant_client_upload_records
        rw [hlookup]
        rfl
      have hstep : qdrantInsertLoop name bpred (fuel + 1) (t :: ts) vectors
          metadata record_ids st =
          qdrantInsertLoop name bpred fuel ((t :: ts).drop (bpred + 1))
            (vectors.drop (bpred + 1)) (metadata.drop (bpred + 1))
            (record_ids.drop (bpred + 1)) (qReplace st name (qAfterUpsert c R1)) := by
        have hcons : qdrantInsertLoop name bpred (fuel + 1) (t :: ts) vectors
            metadata record_ids st =
            (qdrantMakeRecords ((t :: ts).take (bpred + 1))
              (vectors.take (bpred + 1)) (metadata.take (bpred + 1))
              (record_ids.take (bpred + 1))).bind fun records =>
              match qdrant_client_upload_records st name records with
              | .error _ => .ok (st, false)
              | .ok st' =>
                qdrantInsertLoop name bpred fuel ((t :: ts).drop (bpred + 1))
                  (vectors.drop (bpred + 1)) (metadata.drop (bpred + 1))
                  (record_ids.drop (bpred + 1)) st' := rfl
        rw [hcons, hrec]
        show (match qdrant_client_upload_records st name R1 with
          | .error _ => Except.ok (st, false)
          | .ok st' =>
            qdrantInsertLoop name bpred fuel ((t :: ts).drop (bpred + 1))
              (vectors.drop (bpred + 1)) (metadata.drop (bpred + 1))
              (record_ids.drop (bpred + 1)) st') = _
        rw [hup]
      rw [hstep]
      have hfuel' : ((t :: ts).drop (bpred + 1)).length < fuel := by
        simp only [List.length_drop, List.length_cons]
        simp only [List.length_cons] at hfuel
        omega
      have hv' : ((t :: ts).drop (bpred + 1)).length ≤
          (vectors.drop (bpred + 1)).length := by
        rw [List.length_drop, List.length_drop]
        simp only [List.length_cons] at hv ⊢
        omega
      have hm' : ((t :: ts).drop (bpred + 1)).length ≤
          (metadata.drop (bpred + 1)).length := by
        rw [List.length_drop, List.length_drop]
        simp only [List.length_cons] at hm ⊢
        omega
      have hi' : ((t :: ts).drop (bpred + 1)).length ≤
          (record_ids.drop (bpred + 1)).length := by
        rw [List.length_drop, List.length_drop]
        simp only [List.length_cons] at hi ⊢
        omega
      have hkeys' : ((qReplace st name (qAfterUpsert c R1)).map Prod.fst).Nodup := by
        have hk := keys_mapReplace name (qAfterUpsert c R1) st
        exact hk ▸ hkeys
      have hlookup' : (qReplace st name (qAfterUpsert c R1)).lookup name =
          some (qAfterUpsert c R1) :=
        lookup_mapReplace name _ st c hlookup
      rw [ih ((t :: ts).drop (bpred + 1)) (vectors.drop (bpred + 1))
        (metadata.drop (bpred + 1)) (record_ids.drop (bpred + 1)) _ _
        hfuel' hv' hm' hi' hkeys' hlookup']
      rw [← hR2]
      have happ : R1 ++ R2 =
          qdrantRecordsOf (t :: ts) vectors metadata record_ids := by
        rw [hR1, hR2]
        exact zip4With_take_drop _ (bpred + 1) (t :: ts) vectors metadata
          record_ids
      have hrr := mapReplace_mapReplace name (qAfterUpsert c R1)
        (qAfterUpsert c (qdrantRecordsOf (t :: ts) vectors metadata record_ids)) st
      rw [← happ, qAfterUpsert_append]
      show Except.ok
          (mapReplace (mapReplace st name (qAfterUpsert c R1)) name
            (qAfterUpsert (qAfterUpsert c R1) R2), true) = _
      rw [← qAfterUpsert_append, happ, hrr]
      rfl

/-! ## Claim C5 -/
/-- Claim **C5, counterexample.**  The claim "running insert_many twice with the
same record ids leaves the collection in the same state" fails in the
PGVector backend: inserting `texts=["a"], vectors=[[1]], record_ids=[5]`
into an empty collection and then re-running the identical call leaves
two rows (bigserial ids 1 and 2, both with `chunk_id = 5`) instead of
one — record ids are stored in the `chunk_id` column, not used as keys. -/
theorem pg_insert_many_not_idempotent_cex :
    pg_insert_many ⟨none, 100⟩ [("c".data, ⟨1, 1, [], none⟩)] "c".data
        ["a"] [[1]] none [5] 50 =
      .ok ([("c".data, ⟨1, 2, [⟨1, "a", [1], none, 5⟩], none⟩)], true) ∧
    pg_insert_many ⟨none, 100⟩
        [("c".data, ⟨1, 2, [⟨1, "a", [1], none, 5⟩], none⟩)] "c".data
        ["a"] [[1]] none [5] 50 =
      .ok ([("c".data,
        ⟨1, 3, [⟨1, "a", [1], none, 5⟩, ⟨2, "a", [1], none, 5⟩], none⟩)],
        true) ∧
    ([("c".data,
        (⟨1, 3, [⟨1, "a", [1], none, 5⟩, ⟨2, "a", [1], none, 5⟩],
          none⟩ : PGTable))] : PGState) ≠
      [("c".data, ⟨1, 2, [⟨1, "a", [1], none, 5⟩], none⟩)] :=
  ⟨rfl, rfl, by decide⟩

/-- Claim **C5, amended.**  In the Qdrant backend, record ids are idempotent
upsert keys: over an existing collection, with per-text vectors, metadata
and pairwise-distinct record ids supplied, running `insert_many` twice
with the same arguments succeeds and leaves the store exactly as after
the first run.  In the PGVector backend, `insert_many` instead appends
the zipped value rows with fresh bigserial ids on every successful run,
so a re-run with the same record ids grows the table by the batch size
again (it duplicates rows rather than upserting). -/
theorem insert_many_rerun_spec :
    (∀ (st : QdrantState) (collection_name : List Char) (texts : List String)
        (vectors : List (List ℚ)) (ms : List QMeta) (ids : List Int)
        (batch_size : Nat) (c : QCollection),
      (st.map Prod.fst).Nodup → st.lookup collection_name = some c →
      texts.length ≤ vectors.length → texts.length ≤ ms.length →
      texts.length ≤ ids.length → ids.Nodup → 0 < batch_size →
      ∃ st1, qdrant_insert_many st collection_name texts vectors (some ms)
          (some ids) batch_size = .ok (st1, true) ∧
        qdrant_insert_many st1 collection_name texts vectors (some ms)
          (some ids) batch_size = .ok (st1, true)) ∧
    (∀ (cfg : PGConfig) (st : PGState) (collection_name : List Char)
        (texts : List String) (vectors : List (List ℚ))
        (metadata : Option (List (Option String))) (record_ids : List Int)
        (batch_size : Nat) (tbl : PGTable),
      st.lookup collection_name = some tbl →
      vectors.length = record_ids.length → 0 < batch_size →
      ∃ st' tbl',
        pg_insert_many cfg st collection_name texts vectors metadata
          record_ids batch_size = .ok (st', true) ∧
        st'.lookup collection_name = some tbl' ∧
        tbl'.rows.length = tbl.rows.length +
          (pgZipValues texts vectors (pgDefaultMetadata metadata texts.length)
            record_ids).length) := by
  constructor
  · intro st collection_name texts vectors ms ids batch_size c hkeys hlookup
      hv hm hi hnodup hbs
    cases batch_size with
    | zero => omega
    | succ bpred =>
      set R := qdrantRecordsOf texts vectors ms (ids.map some) with hR
      have hidlen : texts.length ≤ (ids.map some).length := by
        rw [List.length_map]
        exact hi
      have hRnodup : (R.map QPoint.id).Nodup := by
        rw [hR, qdrantRecordsOf_ids texts vectors ms (ids.map some) hv hm hidlen]
        exact (List.Nodup.map (Option.some_injective Int) hnodup).sublist
          (List.take_sublist _ _)
      have hrun1 : qdrant_insert_many st collection_name texts vectors
          (some ms) (some ids) (bpred + 1) =
          .ok (qReplace st collection_name (qAfterUpsert c R), true) := by
        have hunfold : qdrant_insert_many st collection_name texts vectors
            (some ms) (some ids) (bpred + 1) =
            qdrantInsertLoop collection_name bpred (texts.length + 1) texts
              vectors ms (ids.map some) st := rfl
        rw [hunfold, qdrantInsertLoop_spec collection_name bpred
          (texts.length + 1) texts vectors ms (ids.map some) st c (by omega)
          hv hm hidlen hkeys hlookup]
      set st1 := qReplace st collection_name (qAfterUpsert c R) with hst1
      have hkeys1 : (st1.map Prod.fst).Nodup := by
        rw [hst1]
        have hk := keys_mapReplace collection_name (qAfterUpsert c R) st
        exact hk ▸ hkeys
      have hlookup1 : st1.lookup collection_name = some (qAfterUpsert c R) := by
        rw [hst1]
        exact lookup_mapReplace collection_name _ st c hlookup
      have hCC : qAfterUpsert (qAfterUpsert c R) R = qAfterUpsert c R := by
        show ({ c with points := qUpsertMany (qUpsertMany c.points R) R }
            : QCollection) = { c with points := qUpsertMany c.points R }
        rw [qUpsertMany_replay R c.points hRnodup]
      have hrun2 : qdrant_insert_many st1 collection_name texts vectors
          (some ms) (some ids) (bpred + 1) = .ok (st1, true) := by
        have hunfold : qdrant_insert_many st1 collection_name texts vectors
            (some ms) (some ids) (bpred + 1) =
            qdrantInsertLoop collection_name bpred (texts.length + 1) texts
              vectors ms (ids.map some) st1 := rfl
        rw [hunfold, qdrantInsertLoop_spec collection_name bpred
          (texts.length + 1) texts vectors ms (ids.map some) st1
          (qAfterUpsert c R) (by omega) hv hm hidlen hkeys1 hlookup1]
        rw [← hR, hCC, hst1]
        have hrr := mapReplace_mapReplace collection_name (qAfterUpsert c R)
          (qAfterUpsert c R) st
        show Except.ok (mapReplace (mapReplace st collection_name
          (qAfterUpsert c R)) collection_name (qAfterUpsert c R), true) = _
        rw [hrr]
        rfl
      exact ⟨st1, hrun1, hrun2⟩
  · intro cfg st collection_name texts vectors metadata record_ids batch_size
      tbl hex hlen hbs
    exact pg_insert_many_appends cfg st collection_name texts vectors metadata
      record_ids batch_size tbl hex hlen hbs

/-- Witness for `insert_many_rerun_spec`: a one-record upsert into an
existing Qdrant collection, and a one-row insert into an existing
pgvector table. -/
theorem insert_many_rerun_spec_witness :
    (∃ st1, qdrant_insert_many [("c".data, ⟨1, none, []⟩)] "c".data ["a"]
          [[1]] (some [QMeta.mNone]) (some [7]) 50 = .ok (st1, true) ∧
        qdrant_insert_many st1 "c".data ["a"] [[1]] (some [QMeta.mNone])
          (some [7]) 50 = .ok (st1, true)) ∧
    (∃ st' tbl',
      pg_insert_many ⟨none, 100⟩ [("c".data, ⟨1, 1, [], none⟩)] "c".data
        ["a"] [[1]] none [5] 50 = .ok (st', true) ∧
      st'.lookup "c".data = some tbl' ∧
      tbl'.rows.length = (⟨1, 1, [], none⟩ : PGTable).rows.length +
        (pgZipValues ["a"] [[1]] (pgDefaultMetadata none 1) [5]).length) :=
  ⟨insert_many_rerun_spec.1 [("c".data, ⟨1, none, []⟩)] "c".data ["a"] [[1]]
      [QMeta.mNone] [7] 50 ⟨1, none, []⟩ (by decide) (by decide) (by decide)
      (by decide) (by decide) (by decide) (by decide),
    insert_many_rerun_spec.2 ⟨none, 100⟩ [("c".data, ⟨1, 1, [], none⟩)]
      "c".data ["a"] [[1]] none [5] 50 ⟨1, 1, [], none⟩ (by decide) (by decide)
      (by decide)⟩
